import Mathlib

set_option autoImplicit false

/-!
# Verification of `neuralpredictors/training/early_stopping.py`

Shallow embedding of the early-stopping training controller.

The source is a Python generator `early_stopping(model, objective, ...)`.
We embed it as a pure, trace-producing state machine:

* The opaque objective callable is modelled as an oracle sequence
  `obj : ℕ → OVal` indexed by invocation count (the controller never
  inspects the model through the objective other than by calling it, so any
  behaviour of the real callable along a run induces such a sequence).
  `OVal` carries a rational value and a finiteness flag (`np.isfinite`).
* The model's parameter state is abstracted to a version number `ℕ`:
  `copy_state` records the current version, `load_state_dict` installs a
  recorded version, and the caller's training step between two resumptions
  of the generator is an oracle `trainStep : ℕ → ℕ → ℕ` applied at each yield
  (the spec's concurrency section assumes the caller is the only other
  mutator and mutates only between yield and resume).
* The model's `training` flag is a `Bool` threaded through the state;
  per the spec's concurrency assumptions only the controller touches it
  during the run.
* Every observable action (objective invocation with the mode flags around
  it, tracker call, yield, scheduler step, snapshot, state restore, decay
  and finalization entry, warning log) is recorded as an event `Ev`; the
  generator's behaviour is the returned event trace plus final state.

The Python `while` loop is embedded with an explicit fuel argument; the
driver supplies fuel `(max_iter - epoch).toNat + 1`, which is exhaustive
whenever `interval ≥ 1` because each iteration of the guarded loop
advances `epoch` by `interval` (with `interval = 0` the Python loop itself
never terminates, so no terminating real run is lost).
-/

/-- A scalar objective value: rational magnitude plus `np.isfinite` flag. -/
structure OVal where
  val : ℚ
  finite : Bool
deriving DecidableEq, Repr

/-- Shape of the `scheduler` argument (line 43 and 130-149 of the source):
`noSched` is `None`; `single p` is a bare scheduler object, `p` telling
whether it is `ReduceLROnPlateau`; `pair w m` is a 2-tuple whose first
component is `None` iff `w = false` and whose second component is `None`
(`m = none`) or a scheduler with plateau-flag `m = some p`. -/
inductive Sched where
  | noSched : Sched
  | single (plateau : Bool) : Sched
  | pair (warmupPresent : Bool) (mainPlateau : Option Bool) : Sched
deriving DecidableEq, Repr

/-- The keyword arguments of `early_stopping` (source lines 31-46).
`interval` is a tick count consumed by `range(interval)`, hence `ℕ`
(Python's `range` of a non-positive number is empty). -/
structure Cfg where
  interval : ℕ
  patience : ℤ
  start : ℤ
  max_iter : ℤ
  maximize : Bool
  tolerance : ℚ
  switch_mode : Bool
  restore_best : Bool
  tracker : Bool
  scheduler : Sched
  lr_decay_steps : ℤ
  number_warmup_epochs : ℤ
deriving DecidableEq, Repr

/-- Observable events of a run. `evalObj` records one invocation of the
inner `_objective` closure together with the model's `training` flag
before the call, during the call, and after the call. `patienceUpd`
records the `logger.info` at source lines 197/203 at an evaluation
boundary; its `counter` field is the value of `patience_counter` after
the branch (the improvement branch of the source logs the pre-reset
value and then resets; we record the state value, which is what the
claims are about). `warn` records a `logger.warning`. -/
inductive Ev where
  | evalObj (modeBefore modeDuring modeAfter : Bool) (v : OVal)
  | trackLog (v : OVal)
  | yielded (epoch : ℤ) (v : OVal)
  | warmupStep (epoch : ℤ)
  | mainStep (epoch : ℤ) (arg : Option OVal)
  | patienceUpd (epoch : ℤ) (counter : ℤ) (v : OVal)
  | snapshot (stateId : ℕ)
  | restoreBest (stateId : ℕ)
  | decayEnter (repeatIdx : ℤ)
  | finalizeEnter
  | warn
deriving DecidableEq, Repr

/-- The controller's mutable state: loop variables of `early_stopping`
plus the borrowed model (`modelState` version and `mode` flag), the
objective-invocation counter `nCalls` and the yield counter `nYields`
driving the two oracles. `bestState` is the version recorded in
`best_state_dict`. -/
structure St where
  epoch : ℤ
  patience_counter : ℤ
  current : OVal
  best : OVal
  bestState : ℕ
  modelState : ℕ
  nCalls : ℕ
  nYields : ℕ
  mode : Bool
deriving DecidableEq, Repr

/-- Source line 126: `maximize = -1 if maximize else 1`. -/
def maximizeSign (maximize : Bool) : ℚ := if maximize then -1 else 1

/-- Source line 196: the improvement test
`current_objective * maximize < best_objective * maximize - tolerance`. -/
def improves (maximize : Bool) (cur best tol : ℚ) : Bool :=
  decide (cur * maximizeSign maximize < best * maximizeSign maximize - tol)

/-- Source lines 102-108: the `_objective` closure. `ts` is the
`training_status` captured once at line 100. Returns the objective value,
the updated state and the recorded event. -/
def evalObjective (switch_mode ts : Bool) (obj : ℕ → OVal) (s : St) :
    OVal × St × List Ev :=
  let mb := s.mode
  let md := if switch_mode then false else mb
  let v := obj s.nCalls
  let ma := if switch_mode then ts else md
  (v, { s with nCalls := s.nCalls + 1, mode := ma }, [Ev.evalObj mb md ma v])

/-- `isinstance(scheduler, tuple)` (source lines 134/139). -/
def isTupleSched : Sched → Bool
  | .pair _ _ => true
  | _ => false

/-- Source lines 130-136: the `reduce_lr_on_plateau` flag. -/
def reduceLROnPlateauFlag : Sched → Bool
  | .single p => p
  | .pair _ (some p) => p
  | _ => false

/-- Source lines 139-147: the `number_warmup_epochs` local after the
`scheduler[0] is None` normalization. -/
def effWarmupEpochs (sched : Sched) (nwe : ℤ) : ℤ :=
  match sched with
  | .pair false _ => 0
  | _ => nwe

/-- Source lines 143-159: the configuration warnings emitted before the
main loop (the `scheduler[0] is None` warning, then the
warm-up/`number_warmup_epochs` consistency `if/elif`, which reads the
already-normalized count). -/
def configWarns (sched : Sched) (nwe : ℤ) : List Ev :=
  (match sched with | .pair false _ => [Ev.warn] | _ => []) ++
  (let nweE := effWarmupEpochs sched nwe
   if isTupleSched sched ∧ nweE = 0 then [Ev.warn]
   else if ¬ isTupleSched sched ∧ 0 < nweE then [Ev.warn]
   else [])

/-- Source lines 178-194: one scheduler step at an evaluation boundary.
`nwe` is the (normalized) `number_warmup_epochs`. The warm-up branch
fires when the scheduler is a tuple and `epoch < number_warmup_epochs`;
otherwise the `ReduceLROnPlateau` variant steps with the current
objective, any other present main scheduler steps without argument, and
a tuple with `None` in the main slot does nothing. -/
def schedStep (sched : Sched) (nwe epoch : ℤ) (v : OVal) : List Ev :=
  match sched with
  | .noSched => []
  | _ =>
    if isTupleSched sched ∧ epoch < nwe then
      [Ev.warmupStep epoch]
    else if reduceLROnPlateauFlag sched then
      [Ev.mainStep epoch (some v)]
    else
      match sched with
      | .single _ => [Ev.mainStep epoch none]
      | .pair _ (some _) => [Ev.mainStep epoch none]
      | _ => []

/-- Source lines 175-203: the evaluation boundary after the `interval`
ticks — re-evaluate the objective, step the scheduler, then the
improvement comparison updating `best_state_dict`, `best_objective`
and `patience_counter`. -/
def evalBoundary (cfg : Cfg) (ts : Bool) (obj : ℕ → OVal) (s : St) :
    St × List Ev :=
  let r := evalObjective cfg.switch_mode ts obj s
  let v := r.1
  let s1 := { r.2.1 with current := v }
  let sEvs := schedStep cfg.scheduler cfg.number_warmup_epochs s1.epoch v
  if improves cfg.maximize v.val s1.best.val cfg.tolerance then
    ({ s1 with bestState := s1.modelState, best := v, patience_counter := 0 },
      r.2.2 ++ sEvs ++ [Ev.patienceUpd s1.epoch 0 v, Ev.snapshot s1.modelState])
  else
    ({ s1 with patience_counter := s1.patience_counter + 1 },
      r.2.2 ++ sEvs ++ [Ev.patienceUpd s1.epoch (s1.patience_counter + 1) v])

/-- Outcome of a loop segment: `ok` when control flows on, `diverged`
when the non-finite check fired (the source's `return` at line 172);
either way the segment's state and emitted events are carried. -/
inductive Res where
  | ok (s : St) (evs : List Ev)
  | diverged (s : St) (evs : List Ev)
deriving DecidableEq, Repr

def Res.st : Res → St
  | .ok s _ => s
  | .diverged s _ => s

def Res.evs : Res → List Ev
  | .ok _ e => e
  | .diverged _ e => e

def Res.isOk : Res → Bool
  | .ok _ _ => true
  | .diverged _ _ => false

/-- Source lines 165-173: the `for _ in range(interval)` tick loop.
Each tick increments `epoch`, reports `current_objective` to the tracker
when present, then checks `np.isfinite`; a non-finite value logs a
warning and aborts (the caller of this function appends the
finalization), otherwise the pair is yielded and the caller's training
step (`trainStep`) runs on the model before the next tick. -/
def ticks (tracker : Bool) (trainStep : ℕ → ℕ → ℕ) : ℕ → St → Res
  | 0, s => .ok s []
  | n + 1, s =>
    let s1 := { s with epoch := s.epoch + 1 }
    let tEvs := if tracker then [Ev.trackLog s1.current] else []
    if s1.current.finite = false then
      .diverged s1 (tEvs ++ [Ev.warn])
    else
      let s2 := { s1 with modelState := trainStep s1.nYields s1.modelState,
                          nYields := s1.nYields + 1 }
      match ticks tracker trainStep n s2 with
      | .ok s' evs => .ok s' (tEvs ++ Ev.yielded s1.epoch s1.current :: evs)
      | .diverged s' evs =>
          .diverged s' (tEvs ++ Ev.yielded s1.epoch s1.current :: evs)

/-- Source lines 164-203: the
`while patience_counter < patience and epoch < max_iter` loop.
The explicit fuel only bounds the recursion; the driver passes
`(max_iter - epoch).toNat + 1`, which the guard can never exhaust when
`interval ≥ 1`. -/
def innerLoop (cfg : Cfg) (ts : Bool) (trainStep : ℕ → ℕ → ℕ) (obj : ℕ → OVal) :
    ℕ → St → Res
  | 0, s => .ok s []
  | fuel + 1, s =>
    if s.patience_counter < cfg.patience ∧ s.epoch < cfg.max_iter then
      match ticks cfg.tracker trainStep cfg.interval s with
      | .diverged s' evs => .diverged s' evs
      | .ok s' evs =>
        let b := evalBoundary cfg ts obj s'
        match innerLoop cfg ts trainStep obj fuel b.1 with
        | .ok s2 evs2 => .ok s2 (evs ++ b.2 ++ evs2)
        | .diverged s2 evs2 => .diverged s2 (evs ++ b.2 ++ evs2)
    else .ok s []

/-- Source lines 110-114: `decay_lr` — evaluate the objective, and when
`restore_best` reload `best_state_dict` and evaluate once more inside
the logged message. -/
def decay_lr (cfg : Cfg) (ts : Bool) (obj : ℕ → OVal) (s : St) :
    St × List Ev :=
  let r := evalObjective cfg.switch_mode ts obj s
  if cfg.restore_best then
    let s2 := { r.2.1 with modelState := r.2.1.bestState }
    let r2 := evalObjective cfg.switch_mode ts obj s2
    (r2.2.1, r.2.2 ++ Ev.restoreBest s.bestState :: r2.2.2)
  else (r.2.1, r.2.2)

/-- Source lines 116-122: `finalize` — evaluate the objective, then
either reload `best_state_dict` and evaluate again inside the restore
message, or evaluate again inside the plain final message. -/
def finalize (cfg : Cfg) (ts : Bool) (obj : ℕ → OVal) (s : St) :
    St × List Ev :=
  let r := evalObjective cfg.switch_mode ts obj s
  if cfg.restore_best then
    let s2 := { r.2.1 with modelState := r.2.1.bestState }
    let r2 := evalObjective cfg.switch_mode ts obj s2
    (r2.2.1, r.2.2 ++ Ev.restoreBest s.bestState :: r2.2.2)
  else
    let r2 := evalObjective cfg.switch_mode ts obj r.2.1
    (r2.2.1, r.2.2 ++ r2.2.2)

/-- Source line 205: the decay-transition guard
`(epoch < max_iter) & (lr_decay_steps > 1) & (repeat < lr_decay_steps)`. -/
def decayCond (cfg : Cfg) (epoch repeatIdx : ℤ) : Bool :=
  decide (epoch < cfg.max_iter) && decide (1 < cfg.lr_decay_steps) &&
    decide (repeatIdx < cfg.lr_decay_steps)

/-- One iteration of the `for repeat in range(lr_decay_steps)` loop
(source lines 161-206): reset `patience_counter`, run the patience loop,
then possibly the decay transition. -/
def cycleStep (cfg : Cfg) (ts : Bool) (trainStep : ℕ → ℕ → ℕ) (obj : ℕ → OVal)
    (repeatIdx : ℤ) (s : St) : Res :=
  match innerLoop cfg ts trainStep obj ((cfg.max_iter - s.epoch).toNat + 1)
      { s with patience_counter := 0 } with
  | .diverged s' evs => .diverged s' evs
  | .ok s' evs =>
    if decayCond cfg s'.epoch repeatIdx then
      let d := decay_lr cfg ts obj s'
      .ok d.1 (evs ++ Ev.decayEnter repeatIdx :: d.2)
    else .ok s' evs

/-- Source lines 161-206: the decay-cycle loop, `n` iterations remaining
and `repeatIdx` the current value of `repeat`. -/
def outerLoop (cfg : Cfg) (ts : Bool) (trainStep : ℕ → ℕ → ℕ) (obj : ℕ → OVal) :
    ℕ → ℤ → St → Res
  | 0, _, s => .ok s []
  | n + 1, r, s =>
    match cycleStep cfg ts trainStep obj r s with
    | .diverged s' evs => .diverged s' evs
    | .ok s' evs =>
      match outerLoop cfg ts trainStep obj n (r + 1) s' with
      | .ok s2 evs2 => .ok s2 (evs ++ evs2)
      | .diverged s2 evs2 => .diverged s2 (evs ++ evs2)

/-- The configuration with `number_warmup_epochs` replaced by its
normalized value (the local-variable reassignment at source line 147). -/
def effCfgOf (cfg : Cfg) : Cfg :=
  { cfg with number_warmup_epochs :=
      effWarmupEpochs cfg.scheduler cfg.number_warmup_epochs }

/-- The whole generator (source lines 31-208). `m0` is the model's
`training` flag on entry (captured as `training_status`, line 100),
`trainStep` the caller's training step applied at each yield, `obj` the
objective oracle. Returns the final state and the full event trace. -/
def early_stopping (cfg : Cfg) (trainStep : ℕ → ℕ → ℕ) (obj : ℕ → OVal)
    (m0 : Bool) : St × List Ev :=
  let s0 : St :=
    { epoch := cfg.start, patience_counter := 0, current := ⟨0, true⟩,
      best := ⟨0, true⟩, bestState := 0, modelState := 0, nCalls := 0,
      nYields := 0, mode := m0 }
  let r := evalObjective cfg.switch_mode m0 obj s0
  let s1 := { r.2.1 with current := r.1, best := r.1,
                         bestState := r.2.1.modelState }
  let initEvs := r.2.2 ++ [Ev.snapshot s1.modelState]
  let wEvs := configWarns cfg.scheduler cfg.number_warmup_epochs
  match outerLoop (effCfgOf cfg) m0 trainStep obj cfg.lr_decay_steps.toNat
      0 s1 with
  | .ok s' evs =>
    let f := finalize (effCfgOf cfg) m0 obj s'
    (f.1, initEvs ++ wEvs ++ evs ++ Ev.finalizeEnter :: f.2)
  | .diverged s' evs =>
    let f := finalize (effCfgOf cfg) m0 obj s'
    (f.1, initEvs ++ wEvs ++ evs ++ Ev.finalizeEnter :: f.2)

/-! ## Event classifiers and trace observations used by the statements -/

def isEvalObjEv : Ev → Bool
  | .evalObj _ _ _ _ => true
  | _ => false

def isYieldEv : Ev → Bool
  | .yielded _ _ => true
  | _ => false

def isDecayEv : Ev → Bool
  | .decayEnter _ => true
  | _ => false

def isFinalizeEv : Ev → Bool
  | .finalizeEnter => true
  | _ => false

def isSchedEv : Ev → Bool
  | .warmupStep _ => true
  | .mainStep _ _ => true
  | _ => false

def isSnapshotEv : Ev → Bool
  | .snapshot _ => true
  | _ => false

/-- Events that the tick loop (source lines 165-173) may emit. -/
def tickEv : Ev → Bool
  | .trackLog _ => true
  | .yielded _ _ => true
  | .warn => true
  | _ => false

/-- The epochs carried by the `yield` events of a trace, in order. -/
def yieldEpochs (evs : List Ev) : List ℤ :=
  evs.filterMap (fun ev => match ev with | .yielded e _ => some e | _ => none)

/-- `m` consecutive integers starting at `a`. -/
def consecFrom (a : ℤ) (m : ℕ) : List ℤ :=
  (List.range m).map (fun i : ℕ => a + (i : ℤ))

/-- Trace invariant for claim C1: every patience-counter report is
between `0` and `patience`. -/
def patOK (p : ℤ) : Ev → Bool
  | .patienceUpd _ c _ => decide (0 ≤ c ∧ c ≤ p)
  | _ => true

/-- Trace invariant for claim C4 (amended bound on yielded epochs). -/
def epochLe (bound : ℤ) : Ev → Bool
  | .yielded e _ => decide (e ≤ bound)
  | _ => true

/-- Frame property of claim C7: when `switch_mode` is set, every
objective evaluation runs in inference mode (`modeDuring = false`) and
afterwards the model holds exactly the mode it had before the
evaluation (`modeAfter = modeBefore`). -/
def modeFrame (sw : Bool) : Ev → Bool
  | .evalObj mb md ma _ => !sw || (md == false && ma == mb)
  | _ => true

/-- Strengthened per-event mode invariant used to establish `modeFrame`:
every evaluation starts and ends with the mode captured as
`training_status`. -/
def modeEvOK (sw ts : Bool) : Ev → Bool
  | .evalObj mb md ma _ =>
      mb == ts && md == (if sw then false else ts) && ma == ts
  | _ => true

/-! ## Concrete runs used by counterexamples and witnesses -/

/-- A caller that never mutates the model between yield and resume. -/
def noMut : ℕ → ℕ → ℕ := fun _ m => m

/-- A constant objective oracle. -/
def objConst (v : OVal) : ℕ → OVal := fun _ => v

/-- Scenario for claim C2: two decay cycles, patience 1, plateauing
objective. -/
def cfgTwo : Cfg :=
  { interval := 1, patience := 1, start := 0, max_iter := 10,
    maximize := true, tolerance := 0, switch_mode := true,
    restore_best := true, tracker := false, scheduler := .noSched,
    lr_decay_steps := 2, number_warmup_epochs := 0 }

/-- Scenario for claim C3: tracker present, non-finite objective. -/
def cfgDiv : Cfg :=
  { interval := 1, patience := 5, start := 0, max_iter := 5,
    maximize := true, tolerance := 0, switch_mode := true,
    restore_best := true, tracker := true, scheduler := .noSched,
    lr_decay_steps := 1, number_warmup_epochs := 0 }

/-- Scenario for claim C4: evaluation interval larger than the epoch
budget. -/
def cfgFour : Cfg :=
  { interval := 5, patience := 20, start := 0, max_iter := 3,
    maximize := true, tolerance := 0, switch_mode := true,
    restore_best := true, tracker := false, scheduler := .noSched,
    lr_decay_steps := 1, number_warmup_epochs := 0 }

/-- Scenario C of the spec (claim C5): scheduler `(warmup, None)` with
`number_warmup_epochs = 5`, `start = 0`, evaluating every epoch. -/
def cfgWarm : Cfg :=
  { interval := 1, patience := 100, start := 0, max_iter := 7,
    maximize := true, tolerance := 0, switch_mode := true,
    restore_best := true, tracker := false, scheduler := .pair true none,
    lr_decay_steps := 1, number_warmup_epochs := 5 }

/-- Degenerate scenario for the C10 witness: `lr_decay_steps = 0`. -/
def cfgZero : Cfg :=
  { interval := 5, patience := 20, start := 0, max_iter := 100,
    maximize := true, tolerance := 0, switch_mode := true,
    restore_best := true, tracker := false, scheduler := .noSched,
    lr_decay_steps := 0, number_warmup_epochs := 0 }

/-! ## State snapshots: `copy_state` (source lines 11-28) and restore

The model's `state_dict` is an ordered mapping from parameter names
(abstracted to `ℕ`) to values; a value is either a numeric tensor
(payload plus a device flag, `cuda = true` for device memory) or an
arbitrary non-tensor configuration value. In this value-level embedding
the aliasing-free copies `clone()` and `copy.deepcopy` are the
identity on the payload; `cpu()` moves the payload to host memory. -/

inductive SVal where
  | tensor (data : List ℚ) (cuda : Bool)
  | other (data : ℕ)
deriving DecidableEq, Repr

/-- Source lines 22-26: `v.cpu() if v.is_cuda else v.clone()` for
tensors, `copy.deepcopy(v)` otherwise. -/
def copyVal : SVal → SVal
  | .tensor d c => if c then .tensor d false else .tensor d c
  | .other x => .other x

/-- Source lines 11-28: `copy_state` maps `copyVal` over every entry of
the state dict in order. -/
def copy_state (m : List (ℕ × SVal)) : List (ℕ × SVal) :=
  m.map (fun p => (p.1, copyVal p.2))

/-- Modelled from the spec: the restore operation
(`model.load_state_dict`, a PyTorch collaborator whose code is not in
this repository) "overwrites the model's current state in place with a
copy of the snapshot's contents, preserving tensor identity/device
placement conventions required by the model": a tensor entry keeps the
model's device flag and receives the snapshot's payload; a non-tensor
entry is replaced by the snapshot's value. -/
def loadVal : SVal → SVal → SVal
  | .tensor _ c, .tensor d _ => .tensor d c
  | _, w => w

/-- Modelled from the spec: `load_state_dict` updates each entry of the
model's state from the snapshot entry with the same key. -/
def load_state_dict (m snap : List (ℕ × SVal)) : List (ℕ × SVal) :=
  m.map (fun p =>
    match snap.lookup p.1 with
    | some w => (p.1, loadVal p.2 w)
    | none => p)

/-- Concrete model state for the C8 witness: one device tensor, one host
tensor, one non-tensor entry. -/
def mExample : List (ℕ × SVal) :=
  [(0, .tensor [1, 2] true), (1, .tensor [3] false), (2, .other 7)]

/-- Concrete controller state with a non-finite current objective, used
by the C3 witness. -/
def stDiv : St :=
  { epoch := 0, patience_counter := 0, current := ⟨0, false⟩,
    best := ⟨0, false⟩, bestState := 0, modelState := 0, nCalls := 1,
    nYields := 0, mode := true }

/-- Concrete controller state already at the epoch budget of `cfgTwo`,
used by the C2 witness. -/
def stHi : St :=
  { epoch := 10, patience_counter := 0, current := ⟨0, true⟩,
    best := ⟨0, true⟩, bestState := 0, modelState := 0, nCalls := 1,
    nYields := 0, mode := true }

/-! ## Basic lemmas about the trace observations -/

theorem consecFrom_succ_cons (a : ℤ) (m : ℕ) :
    consecFrom a (m + 1) = a :: consecFrom (a + 1) m := by
  unfold consecFrom
  rw [List.range_succ_eq_map, List.map_cons, List.map_map]
  congr 1
  · simp
  · apply List.map_congr_left
    intro i _
    simp only [Function.comp_apply, Nat.succ_eq_add_one]
    push_cast
    ring

theorem consecFrom_append (a : ℤ) (m k : ℕ) :
    consecFrom a m ++ consecFrom (a + m) k = consecFrom a (m + k) := by
  induction m generalizing a with
  | zero => simp [consecFrom]
  | succ m ih =>
    rw [consecFrom_succ_cons]
    have h1 : (m + 1 : ℕ) + k = (m + k) + 1 := by omega
    rw [h1, consecFrom_succ_cons]
    rw [List.cons_append]
    have h2 : a + ((m : ℤ) + 1) = (a + 1) + m := by ring
    push_cast
    rw [h2]
    exact congrArg _ (ih (a + 1))

theorem consecFrom_mem_lt (a : ℤ) (m : ℕ) (e : ℤ)
    (he : e ∈ consecFrom a m) : e < a + m := by
  simp only [consecFrom, List.mem_map, List.mem_range] at he
  obtain ⟨i, hi, rfl⟩ := he
  have h2 : (i : ℤ) < (m : ℤ) := by exact_mod_cast hi
  omega

theorem yieldEpochs_append (l1 l2 : List Ev) :
    yieldEpochs (l1 ++ l2) = yieldEpochs l1 ++ yieldEpochs l2 :=
  List.filterMap_append l1 l2 _

theorem mem_yieldEpochs_of_mem {e : ℤ} {v : OVal} {l : List Ev}
    (h : Ev.yielded e v ∈ l) : e ∈ yieldEpochs l := by
  simp only [yieldEpochs, List.mem_filterMap]
  exact ⟨Ev.yielded e v, h, rfl⟩

/-- The single comparison direction of the source (line 196) coincides
with the directional notion of improvement. -/
theorem improves_iff (mx : Bool) (cur best tol : ℚ) :
    improves mx cur best tol = true ↔
      (if mx = true then best + tol < cur else cur < best - tol) := by
  cases mx <;>
    simp only [improves, maximizeSign, if_true, if_false, decide_eq_true_eq,
      Bool.false_eq_true] <;>
    constructor <;> intro h <;> nlinarith [h]

/-! ## Shape lemmas for the straight-line segments -/

/-- Closed form of one evaluation boundary. -/
theorem evalBoundary_eq (cfg : Cfg) (ts : Bool) (obj : ℕ → OVal) (s : St) :
    evalBoundary cfg ts obj s =
      ({ s with
          current := obj s.nCalls
          nCalls := s.nCalls + 1
          mode := if cfg.switch_mode then ts else s.mode
          best := if improves cfg.maximize (obj s.nCalls).val s.best.val
                    cfg.tolerance then obj s.nCalls else s.best
          bestState := if improves cfg.maximize (obj s.nCalls).val s.best.val
                    cfg.tolerance then s.modelState else s.bestState
          patience_counter := if improves cfg.maximize (obj s.nCalls).val
                    s.best.val cfg.tolerance then 0
                  else s.patience_counter + 1 },
        Ev.evalObj s.mode (if cfg.switch_mode then false else s.mode)
            (if cfg.switch_mode then ts else s.mode) (obj s.nCalls) ::
          (schedStep cfg.scheduler cfg.number_warmup_epochs s.epoch
              (obj s.nCalls) ++
            (if improves cfg.maximize (obj s.nCalls).val s.best.val
                cfg.tolerance then
              [Ev.patienceUpd s.epoch 0 (obj s.nCalls),
               Ev.snapshot s.modelState]
             else
              [Ev.patienceUpd s.epoch (s.patience_counter + 1)
                (obj s.nCalls)]))) := by
  unfold evalBoundary evalObjective
  by_cases himp : improves cfg.maximize (obj s.nCalls).val s.best.val
      cfg.tolerance = true
  · cases hsw : cfg.switch_mode <;> simp_all
  · cases hsw : cfg.switch_mode <;> simp_all

/-- Closed form of `finalize`: exactly two objective invocations, with
the best-state restore (when `restore_best`) between them. -/
theorem finalize_eq (cfg : Cfg) (ts : Bool) (obj : ℕ → OVal) (s : St) :
    finalize cfg ts obj s =
      ({ s with
          nCalls := s.nCalls + 2
          mode := if cfg.switch_mode then ts else s.mode
          modelState := if cfg.restore_best then s.bestState
                        else s.modelState },
        Ev.evalObj s.mode (if cfg.switch_mode then false else s.mode)
            (if cfg.switch_mode then ts else s.mode) (obj s.nCalls) ::
          ((if cfg.restore_best then [Ev.restoreBest s.bestState] else []) ++
            [Ev.evalObj (if cfg.switch_mode then ts else s.mode)
              (if cfg.switch_mode then false else s.mode)
              (if cfg.switch_mode then ts else s.mode)
              (obj (s.nCalls + 1))])) := by
  unfold finalize evalObjective
  cases hrb : cfg.restore_best <;> cases hsw : cfg.switch_mode <;> simp_all

/-- Closed form of `decay_lr`. -/
theorem decay_lr_eq (cfg : Cfg) (ts : Bool) (obj : ℕ → OVal) (s : St) :
    decay_lr cfg ts obj s =
      (if cfg.restore_best then
        ({ s with
            nCalls := s.nCalls + 2
            mode := if cfg.switch_mode then ts else s.mode
            modelState := s.bestState },
          [Ev.evalObj s.mode (if cfg.switch_mode then false else s.mode)
              (if cfg.switch_mode then ts else s.mode) (obj s.nCalls),
            Ev.restoreBest s.bestState,
            Ev.evalObj (if cfg.switch_mode then ts else s.mode)
              (if cfg.switch_mode then false else s.mode)
              (if cfg.switch_mode then ts else s.mode) (obj (s.nCalls + 1))])
      else
        ({ s with
            nCalls := s.nCalls + 1
            mode := if cfg.switch_mode then ts else s.mode },
          [Ev.evalObj s.mode (if cfg.switch_mode then false else s.mode)
              (if cfg.switch_mode then ts else s.mode) (obj s.nCalls)])) := by
  unfold decay_lr evalObjective
  cases hrb : cfg.restore_best <;> cases hsw : cfg.switch_mode <;> simp_all

/-- A scheduler step emits at most one event, and only a scheduler-step
event. -/
theorem schedStep_cases (sched : Sched) (nwe e : ℤ) (v : OVal) :
    schedStep sched nwe e v = [] ∨
    schedStep sched nwe e v = [Ev.warmupStep e] ∨
    schedStep sched nwe e v = [Ev.mainStep e (some v)] ∨
    schedStep sched nwe e v = [Ev.mainStep e none] := by
  rcases sched with _ | p | ⟨w, m⟩ <;> unfold schedStep <;>
    repeat' split
  all_goals simp

theorem schedStep_sched_events (sched : Sched) (nwe e : ℤ) (v : OVal) :
    ∀ ev ∈ schedStep sched nwe e v, isSchedEv ev = true := by
  intro ev hev
  rcases schedStep_cases sched nwe e v with h | h | h | h <;>
    rw [h] at hev <;> simp_all [isSchedEv]

/-! ## Behaviour of the tick loop -/

theorem ticks_zero (tr : Bool) (f : ℕ → ℕ → ℕ) (s : St) :
    ticks tr f 0 s = .ok s [] := rfl

theorem ticks_succ_div (tr : Bool) (f : ℕ → ℕ → ℕ) (n : ℕ) (s : St)
    (hf : s.current.finite = false) :
    ticks tr f (n + 1) s =
      .diverged { s with epoch := s.epoch + 1 }
        ((if tr then [Ev.trackLog s.current] else []) ++ [Ev.warn]) := by
  simp only [ticks]
  simp [hf]

theorem ticks_succ_fin (tr : Bool) (f : ℕ → ℕ → ℕ) (n : ℕ) (s : St)
    (hf : s.current.finite = true) :
    ticks tr f (n + 1) s =
      (match ticks tr f n
          { s with
              epoch := s.epoch + 1
              modelState := f s.nYields s.modelState
              nYields := s.nYields + 1 } with
       | .ok s' evs => Res.ok s'
           ((if tr then [Ev.trackLog s.current] else []) ++
             Ev.yielded (s.epoch + 1) s.current :: evs)
       | .diverged s' evs => Res.diverged s'
           ((if tr then [Ev.trackLog s.current] else []) ++
             Ev.yielded (s.epoch + 1) s.current :: evs)) := by
  simp only [ticks]
  simp [hf]

theorem ticks_succ_fin_ok (tr : Bool) (f : ℕ → ℕ → ℕ) (n : ℕ) (s s' : St)
    (evs : List Ev) (hf : s.current.finite = true)
    (h : ticks tr f n
        { s with
            epoch := s.epoch + 1
            modelState := f s.nYields s.modelState
            nYields := s.nYields + 1 } = .ok s' evs) :
    ticks tr f (n + 1) s =
      .ok s' ((if tr then [Ev.trackLog s.current] else []) ++
        Ev.yielded (s.epoch + 1) s.current :: evs) := by
  rw [ticks_succ_fin tr f n s hf, h]

theorem ticks_succ_fin_div (tr : Bool) (f : ℕ → ℕ → ℕ) (n : ℕ) (s s' : St)
    (evs : List Ev) (hf : s.current.finite = true)
    (h : ticks tr f n
        { s with
            epoch := s.epoch + 1
            modelState := f s.nYields s.modelState
            nYields := s.nYields + 1 } = .diverged s' evs) :
    ticks tr f (n + 1) s =
      .diverged s' ((if tr then [Ev.trackLog s.current] else []) ++
        Ev.yielded (s.epoch + 1) s.current :: evs) := by
  rw [ticks_succ_fin tr f n s hf, h]

theorem ticks_spec (tr : Bool) (f : ℕ → ℕ → ℕ) (n : ℕ) :
    ∀ s : St,
      (∀ ev ∈ (ticks tr f n s).evs, tickEv ev = true) ∧
      (ticks tr f n s).st.current = s.current ∧
      (ticks tr f n s).st.best = s.best ∧
      (ticks tr f n s).st.bestState = s.bestState ∧
      (ticks tr f n s).st.patience_counter = s.patience_counter ∧
      (ticks tr f n s).st.nCalls = s.nCalls ∧
      (ticks tr f n s).st.mode = s.mode ∧
      ∃ m : ℕ, m ≤ n ∧
        yieldEpochs (ticks tr f n s).evs = consecFrom (s.epoch + 1) m ∧
        ((ticks tr f n s).isOk = true →
          m = n ∧ (ticks tr f n s).st.epoch = s.epoch + n) ∧
        ((ticks tr f n s).isOk = false →
          (ticks tr f n s).st.epoch = s.epoch + m + 1) := by
  induction n with
  | zero =>
    intro s
    rw [ticks_zero]
    refine ⟨?_, rfl, rfl, rfl, rfl, rfl, rfl, 0, le_refl 0, ?_, ?_, ?_⟩
    · intro ev hev
      simp [Res.evs] at hev
    · simp [Res.evs, yieldEpochs, consecFrom]
    · intro _
      simp [Res.st]
    · intro h
      simp [Res.isOk] at h
  | succ n ih =>
    intro s
    by_cases hf : s.current.finite = false
    · rw [ticks_succ_div tr f n s hf]
      refine ⟨?_, rfl, rfl, rfl, rfl, rfl, rfl, 0, Nat.zero_le _, ?_, ?_, ?_⟩
      · intro ev hev
        have hc : ev = Ev.trackLog s.current ∨ ev = Ev.warn := by
          cases tr <;> simp [Res.evs] at hev <;> tauto
        rcases hc with h | h <;> simp [h, tickEv]
      · cases tr <;> simp [Res.evs, yieldEpochs, consecFrom]
      · intro h
        simp [Res.isOk] at h
      · intro _
        simp [Res.st]
    · have hf' : s.current.finite = true := by
        cases h : s.current.finite
        · exact absurd h hf
        · rfl
      obtain ⟨ihEv, ihCur, ihBest, ihBestSt, ihPc, ihCalls, ihMode,
        m, hm, hye, hok, hdiv⟩ := ih
          { s with
              epoch := s.epoch + 1
              modelState := f s.nYields s.modelState
              nYields := s.nYields + 1 }
      cases hres : ticks tr f n
          { s with
              epoch := s.epoch + 1
              modelState := f s.nYields s.modelState
              nYields := s.nYields + 1 } with
      | ok s' evs =>
        rw [hres] at ihEv ihCur ihBest ihBestSt ihPc ihCalls ihMode hye hok hdiv
        simp only [Res.st, Res.evs, Res.isOk] at ihEv ihCur ihBest ihBestSt ihPc ihCalls ihMode hye hok hdiv
        rw [ticks_succ_fin_ok tr f n s s' evs hf' hres]
        simp only [Res.st, Res.evs, Res.isOk]
        refine ⟨?_, ihCur, ihBest, ihBestSt, ihPc, ihCalls, ihMode,
          m + 1, by omega, ?_, ?_, ?_⟩
        · intro ev hev
          rcases List.mem_append.mp hev with h | h
          · have hc : ev = Ev.trackLog s.current := by
              cases tr <;> simp at h <;> tauto
            simp [hc, tickEv]
          · rcases List.mem_cons.mp h with h' | h'
            · simp [h', tickEv]
            · exact ihEv ev h'
        · rw [yieldEpochs_append]
          have h1 : yieldEpochs (if tr then [Ev.trackLog s.current]
              else []) = [] := by
            cases tr <;> simp [yieldEpochs]
          have h2 : yieldEpochs (Ev.yielded (s.epoch + 1) s.current :: evs) =
              (s.epoch + 1) :: yieldEpochs evs := by
            simp [yieldEpochs]
          rw [h1, h2, hye]
          simp only [List.nil_append]
          rw [← consecFrom_succ_cons]
        · intro _
          obtain ⟨hmn, hep⟩ := hok trivial
          refine ⟨by omega, ?_⟩
          rw [hep]
          push_cast
          ring
        · intro h
          simp at h
      | diverged s' evs =>
        rw [hres] at ihEv ihCur ihBest ihBestSt ihPc ihCalls ihMode hye hok hdiv
        simp only [Res.st, Res.evs, Res.isOk] at ihEv ihCur ihBest ihBestSt ihPc ihCalls ihMode hye hok hdiv
        rw [ticks_succ_fin_div tr f n s s' evs hf' hres]
        simp only [Res.st, Res.evs, Res.isOk]
        refine ⟨?_, ihCur, ihBest, ihBestSt, ihPc, ihCalls, ihMode,
          m + 1, by omega, ?_, ?_, ?_⟩
        · intro ev hev
          rcases List.mem_append.mp hev with h | h
          · have hc : ev = Ev.trackLog s.current := by
              cases tr <;> simp at h <;> tauto
            simp [hc, tickEv]
          · rcases List.mem_cons.mp h with h' | h'
            · simp [h', tickEv]
            · exact ihEv ev h'
        · rw [yieldEpochs_append]
          have h1 : yieldEpochs (if tr then [Ev.trackLog s.current]
              else []) = [] := by
            cases tr <;> simp [yieldEpochs]
          have h2 : yieldEpochs (Ev.yielded (s.epoch + 1) s.current :: evs) =
              (s.epoch + 1) :: yieldEpochs evs := by
            simp [yieldEpochs]
          rw [h1, h2, hye]
          simp only [List.nil_append]
          rw [← consecFrom_succ_cons]
        · intro h
          simp at h
        · intro _
          have hep := hdiv trivial
          rw [hep]
          push_cast
          ring

/-! ## Behaviour of the patience loop -/

theorem innerLoop_stop (cfg : Cfg) (ts : Bool) (f : ℕ → ℕ → ℕ)
    (obj : ℕ → OVal) (fuel : ℕ) (s : St)
    (h : ¬(s.patience_counter < cfg.patience ∧ s.epoch < cfg.max_iter)) :
    innerLoop cfg ts f obj fuel s = .ok s [] := by
  cases fuel with
  | zero => rfl
  | succ fuel =>
    simp only [innerLoop]
    rw [if_neg h]

theorem innerLoop_succ_div (cfg : Cfg) (ts : Bool) (f : ℕ → ℕ → ℕ)
    (obj : ℕ → OVal) (fuel : ℕ) (s s' : St) (evs : List Ev)
    (hg : s.patience_counter < cfg.patience ∧ s.epoch < cfg.max_iter)
    (h : ticks cfg.tracker f cfg.interval s = .diverged s' evs) :
    innerLoop cfg ts f obj (fuel + 1) s = .diverged s' evs := by
  simp only [innerLoop]
  rw [if_pos hg, h]

theorem innerLoop_succ_ok_ok (cfg : Cfg) (ts : Bool) (f : ℕ → ℕ → ℕ)
    (obj : ℕ → OVal) (fuel : ℕ) (s s' s2 : St) (evs evs2 : List Ev)
    (hg : s.patience_counter < cfg.patience ∧ s.epoch < cfg.max_iter)
    (h : ticks cfg.tracker f cfg.interval s = .ok s' evs)
    (hib : innerLoop cfg ts f obj fuel (evalBoundary cfg ts obj s').1 =
      .ok s2 evs2) :
    innerLoop cfg ts f obj (fuel + 1) s =
      .ok s2 (evs ++ (evalBoundary cfg ts obj s').2 ++ evs2) := by
  simp only [innerLoop]
  rw [if_pos hg, h]
  simp only []
  rw [hib]

theorem innerLoop_succ_ok_div (cfg : Cfg) (ts : Bool) (f : ℕ → ℕ → ℕ)
    (obj : ℕ → OVal) (fuel : ℕ) (s s' s2 : St) (evs evs2 : List Ev)
    (hg : s.patience_counter < cfg.patience ∧ s.epoch < cfg.max_iter)
    (h : ticks cfg.tracker f cfg.interval s = .ok s' evs)
    (hib : innerLoop cfg ts f obj fuel (evalBoundary cfg ts obj s').1 =
      .diverged s2 evs2) :
    innerLoop cfg ts f obj (fuel + 1) s =
      .diverged s2 (evs ++ (evalBoundary cfg ts obj s').2 ++ evs2) := by
  simp only [innerLoop]
  rw [if_pos hg, h]
  simp only []
  rw [hib]

theorem tickEv_props (p : ℤ) (sw ts : Bool) (ev : Ev)
    (h : tickEv ev = true) :
    patOK p ev = true ∧ modeEvOK sw ts ev = true ∧ isDecayEv ev = false ∧
    isFinalizeEv ev = false := by
  cases ev <;> simp_all [tickEv, patOK, modeEvOK, isDecayEv, isFinalizeEv]

theorem epochLe_of_not_yield (b : ℤ) (ev : Ev) (h : isYieldEv ev = false) :
    epochLe b ev = true := by
  cases ev <;> simp_all [isYieldEv, epochLe]

theorem schedEv_props (p : ℤ) (sw ts : Bool) (b : ℤ) (ev : Ev)
    (h : isSchedEv ev = true) :
    patOK p ev = true ∧ modeEvOK sw ts ev = true ∧ isDecayEv ev = false ∧
    isFinalizeEv ev = false ∧ epochLe b ev = true := by
  cases ev <;>
    simp_all [isSchedEv, patOK, modeEvOK, isDecayEv, isFinalizeEv, epochLe]

theorem evalBoundary_events (cfg : Cfg) (ts : Bool) (obj : ℕ → OVal)
    (s : St) (hmode : s.mode = ts) (hpc0 : 0 ≤ s.patience_counter)
    (hpc : s.patience_counter < cfg.patience) :
    ∀ ev ∈ (evalBoundary cfg ts obj s).2,
      patOK cfg.patience ev = true ∧
      modeEvOK cfg.switch_mode ts ev = true ∧
      isDecayEv ev = false ∧ isFinalizeEv ev = false ∧
      isYieldEv ev = false := by
  intro ev hev
  rw [evalBoundary_eq] at hev
  simp only [List.mem_cons, List.mem_append] at hev
  rcases hev with h | h
  · subst h
    subst hmode
    cases hsw : cfg.switch_mode <;>
      simp [patOK, modeEvOK, isDecayEv, isFinalizeEv, isYieldEv]
  · rcases h with h | h
    · have hs := schedStep_sched_events cfg.scheduler
        cfg.number_warmup_epochs s.epoch (obj s.nCalls) ev h
      obtain ⟨h1, h2, h3, h4, h5⟩ :=
        schedEv_props cfg.patience cfg.switch_mode ts 0 ev hs
      refine ⟨h1, h2, h3, h4, ?_⟩
      cases ev <;> simp_all [isSchedEv, isYieldEv]
    · by_cases himp : improves cfg.maximize (obj s.nCalls).val s.best.val
          cfg.tolerance = true
      · rw [if_pos himp] at h
        simp only [List.mem_cons, List.mem_singleton] at h
        rcases h with h | h | h
        · subst h
          constructor
          · simp only [patOK]
            rw [decide_eq_true_eq]
            omega
          · simp [modeEvOK, isDecayEv, isFinalizeEv, isYieldEv]
        · subst h
          simp [patOK, modeEvOK, isDecayEv, isFinalizeEv, isYieldEv]
        · cases h
      · rw [if_neg himp] at h
        simp only [List.mem_singleton] at h
        subst h
        constructor
        · simp only [patOK]
          rw [decide_eq_true_eq]
          omega
        · simp [modeEvOK, isDecayEv, isFinalizeEv, isYieldEv]

theorem yieldEpochs_nil_of_no_yield (l : List Ev)
    (h : ∀ ev ∈ l, isYieldEv ev = false) : yieldEpochs l = [] := by
  rw [yieldEpochs, List.filterMap_eq_nil_iff]
  intro ev hev
  have := h ev hev
  cases ev <;> simp_all [isYieldEv]

theorem innerLoop_spec (cfg : Cfg) (ts : Bool) (f : ℕ → ℕ → ℕ)
    (obj : ℕ → OVal) (fuel : ℕ) :
    ∀ s : St, 0 ≤ s.patience_counter → s.mode = ts →
      (∀ ev ∈ (innerLoop cfg ts f obj fuel s).evs,
        patOK cfg.patience ev = true ∧
        modeEvOK cfg.switch_mode ts ev = true ∧
        isDecayEv ev = false ∧
        isFinalizeEv ev = false ∧
        epochLe (cfg.max_iter - 1 + cfg.interval) ev = true) ∧
      (innerLoop cfg ts f obj fuel s).st.mode = ts ∧
      ∃ m : ℕ,
        yieldEpochs (innerLoop cfg ts f obj fuel s).evs =
          consecFrom (s.epoch + 1) m ∧
        ((innerLoop cfg ts f obj fuel s).isOk = true →
          (innerLoop cfg ts f obj fuel s).st.epoch = s.epoch + m) ∧
        ((innerLoop cfg ts f obj fuel s).isOk = false →
          (innerLoop cfg ts f obj fuel s).st.epoch = s.epoch + m + 1) := by
  induction fuel with
  | zero =>
    intro s hpc0 hmode
    have h0 : innerLoop cfg ts f obj 0 s = .ok s [] := rfl
    rw [h0]
    refine ⟨?_, hmode, 0, ?_, ?_, ?_⟩
    · intro ev hev
      simp [Res.evs] at hev
    · simp [Res.evs, yieldEpochs, consecFrom]
    · intro _
      simp [Res.st]
    · intro h
      simp [Res.isOk] at h
  | succ fuel ih =>
    intro s hpc0 hmode
    by_cases hg : s.patience_counter < cfg.patience ∧ s.epoch < cfg.max_iter
    · obtain ⟨tEv, tCur, tBest, tBestSt, tPc, tCalls, tMode, mt, hmt, tYe,
        tOk, tDiv⟩ := ticks_spec cfg.tracker f cfg.interval s
      cases hticks : ticks cfg.tracker f cfg.interval s with
      | diverged st evs =>
        rw [hticks] at tEv tCur tBest tBestSt tPc tCalls tMode tYe tOk tDiv
        simp only [Res.st, Res.evs, Res.isOk] at tEv tCur tBest tBestSt tPc tCalls tMode tYe tOk tDiv
        rw [innerLoop_succ_div cfg ts f obj fuel s st evs hg hticks]
        simp only [Res.st, Res.evs, Res.isOk]
        refine ⟨?_, by rw [tMode, hmode], mt, tYe, ?_, ?_⟩
        · intro ev hev
          obtain ⟨h1, h2, h3, h4⟩ := tickEv_props cfg.patience
            cfg.switch_mode ts ev (tEv ev hev)
          refine ⟨h1, h2, h3, h4, ?_⟩
          cases ev with
          | yielded e v =>
            have he : e ∈ yieldEpochs evs := mem_yieldEpochs_of_mem hev
            rw [tYe] at he
            have hlt := consecFrom_mem_lt _ _ _ he
            simp only [epochLe]
            rw [decide_eq_true_eq]
            have hc : (mt : ℤ) ≤ (cfg.interval : ℤ) := by exact_mod_cast hmt
            omega
          | evalObj a b c d => simp [epochLe]
          | trackLog v => simp [epochLe]
          | warmupStep e => simp [epochLe]
          | mainStep e a => simp [epochLe]
          | patienceUpd a b c => simp [epochLe]
          | snapshot i => simp [epochLe]
          | restoreBest i => simp [epochLe]
          | decayEnter r => simp [epochLe]
          | finalizeEnter => simp [epochLe]
          | warn => simp [epochLe]
        · intro h
          simp at h
        · intro _
          exact tDiv trivial
      | ok s' evs =>
        rw [hticks] at tEv tCur tBest tBestSt tPc tCalls tMode tYe tOk tDiv
        simp only [Res.st, Res.evs, Res.isOk] at tEv tCur tBest tBestSt tPc tCalls tMode tYe tOk tDiv
        obtain ⟨mtEq, hsEpoch⟩ := tOk trivial
        subst mtEq
        have hs'mode : s'.mode = ts := by rw [tMode, hmode]
        have hs'pc : s'.patience_counter = s.patience_counter := tPc
        have hbEpoch : (evalBoundary cfg ts obj s').1.epoch = s'.epoch := by
          rw [evalBoundary_eq]
        have hbMode : (evalBoundary cfg ts obj s').1.mode = ts := by
          rw [evalBoundary_eq]
          by_cases h : cfg.switch_mode = true <;> simp [h, hs'mode]
        have hbPc : 0 ≤ (evalBoundary cfg ts obj s').1.patience_counter := by
          rw [evalBoundary_eq]
          by_cases h : improves cfg.maximize (obj s'.nCalls).val
              s'.best.val cfg.tolerance = true <;> simp [h] <;> omega
        obtain ⟨iEv, iMode, m2, iYe, iOk, iDiv⟩ :=
          ih (evalBoundary cfg ts obj s').1 hbPc hbMode
        have hbEvs : ∀ ev ∈ (evalBoundary cfg ts obj s').2,
            patOK cfg.patience ev = true ∧
            modeEvOK cfg.switch_mode ts ev = true ∧
            isDecayEv ev = false ∧ isFinalizeEv ev = false ∧
            isYieldEv ev = false :=
          evalBoundary_events cfg ts obj s' hs'mode
            (by rw [hs'pc]; exact hpc0) (by rw [hs'pc]; exact hg.1)
        have hbYe : yieldEpochs (evalBoundary cfg ts obj s').2 = [] :=
          yieldEpochs_nil_of_no_yield _ (fun ev hev => (hbEvs ev hev).2.2.2.2)
        have hEvCommon : ∀ ev ∈ evs,
            patOK cfg.patience ev = true ∧
            modeEvOK cfg.switch_mode ts ev = true ∧
            isDecayEv ev = false ∧ isFinalizeEv ev = false ∧
            epochLe (cfg.max_iter - 1 + cfg.interval) ev = true := by
          intro ev hev
          obtain ⟨h1, h2, h3, h4⟩ := tickEv_props cfg.patience
            cfg.switch_mode ts ev (tEv ev hev)
          refine ⟨h1, h2, h3, h4, ?_⟩
          cases ev with
          | yielded e v =>
            have he : e ∈ yieldEpochs evs := mem_yieldEpochs_of_mem hev
            rw [tYe] at he
            have hlt := consecFrom_mem_lt _ _ _ he
            simp only [epochLe]
            rw [decide_eq_true_eq]
            omega
          | evalObj a b c d => simp [epochLe]
          | trackLog v => simp [epochLe]
          | warmupStep e => simp [epochLe]
          | mainStep e a => simp [epochLe]
          | patienceUpd a b c => simp [epochLe]
          | snapshot i => simp [epochLe]
          | restoreBest i => simp [epochLe]
          | decayEnter r => simp [epochLe]
          | finalizeEnter => simp [epochLe]
          | warn => simp [epochLe]
        cases hib : innerLoop cfg ts f obj fuel (evalBoundary cfg ts obj s').1 with
        | ok s2 evs2 =>
          rw [hib] at iEv iMode iYe iOk iDiv
          simp only [Res.st, Res.evs, Res.isOk] at iEv iMode iYe iOk iDiv
          rw [innerLoop_succ_ok_ok cfg ts f obj fuel s s' s2 evs evs2 hg hticks hib]
          simp only [Res.st, Res.evs, Res.isOk]
          refine ⟨?_, iMode, cfg.interval + m2, ?_, ?_, ?_⟩
          · intro ev hev
            simp only [List.mem_append] at hev
            rcases hev with (h | h) | h
            · exact hEvCommon ev h
            · obtain ⟨h1, h2, h3, h4, h5⟩ := hbEvs ev h
              exact ⟨h1, h2, h3, h4, epochLe_of_not_yield _ ev h5⟩
            · exact iEv ev h
          · rw [yieldEpochs_append, yieldEpochs_append, tYe, hbYe, iYe]
            rw [hbEpoch]
            have hstart : s'.epoch + 1 = (s.epoch + 1) + (cfg.interval : ℤ) := by
              omega
            rw [hstart, List.append_nil, consecFrom_append]
          · intro _
            have h2 := iOk trivial
            rw [hbEpoch] at h2
            push_cast
            omega
          · intro h
            simp at h
        | diverged s2 evs2 =>
          rw [hib] at iEv iMode iYe iOk iDiv
          simp only [Res.st, Res.evs, Res.isOk] at iEv iMode iYe iOk iDiv
          rw [innerLoop_succ_ok_div cfg ts f obj fuel s s' s2 evs evs2 hg hticks hib]
          simp only [Res.st, Res.evs, Res.isOk]
          refine ⟨?_, iMode, cfg.interval + m2, ?_, ?_, ?_⟩
          · intro ev hev
            simp only [List.mem_append] at hev
            rcases hev with (h | h) | h
            · exact hEvCommon ev h
            · obtain ⟨h1, h2, h3, h4, h5⟩ := hbEvs ev h
              exact ⟨h1, h2, h3, h4, epochLe_of_not_yield _ ev h5⟩
            · exact iEv ev h
          · rw [yieldEpochs_append, yieldEpochs_append, tYe, hbYe, iYe]
            rw [hbEpoch]
            have hstart : s'.epoch + 1 = (s.epoch + 1) + (cfg.interval : ℤ) := by
              omega
            rw [hstart, List.append_nil, consecFrom_append]
          · intro h
            simp at h
          · intro _
            have h2 := iDiv trivial
            rw [hbEpoch] at h2
            push_cast
            omega
    · rw [innerLoop_stop cfg ts f obj (fuel + 1) s hg]
      refine ⟨?_, hmode, 0, ?_, ?_, ?_⟩
      · intro ev hev
        simp [Res.evs] at hev
      · simp [Res.evs, yieldEpochs, consecFrom]
      · intro _
        simp [Res.st]
      · intro h
        simp [Res.isOk] at h

/-! ## Behaviour of the decay-cycle loop -/

theorem cycleStep_div (cfg : Cfg) (ts : Bool) (f : ℕ → ℕ → ℕ)
    (obj : ℕ → OVal) (r : ℤ) (s s' : St) (evs : List Ev)
    (h : innerLoop cfg ts f obj ((cfg.max_iter - s.epoch).toNat + 1)
      { s with patience_counter := 0 } = .diverged s' evs) :
    cycleStep cfg ts f obj r s = .diverged s' evs := by
  unfold cycleStep
  rw [h]

theorem cycleStep_ok_decay (cfg : Cfg) (ts : Bool) (f : ℕ → ℕ → ℕ)
    (obj : ℕ → OVal) (r : ℤ) (s s' : St) (evs : List Ev)
    (h : innerLoop cfg ts f obj ((cfg.max_iter - s.epoch).toNat + 1)
      { s with patience_counter := 0 } = .ok s' evs)
    (hd : decayCond cfg s'.epoch r = true) :
    cycleStep cfg ts f obj r s =
      .ok (decay_lr cfg ts obj s').1
        (evs ++ Ev.decayEnter r :: (decay_lr cfg ts obj s').2) := by
  unfold cycleStep
  rw [h]
  simp only [hd, if_true]

theorem cycleStep_ok_nodecay (cfg : Cfg) (ts : Bool) (f : ℕ → ℕ → ℕ)
    (obj : ℕ → OVal) (r : ℤ) (s s' : St) (evs : List Ev)
    (h : innerLoop cfg ts f obj ((cfg.max_iter - s.epoch).toNat + 1)
      { s with patience_counter := 0 } = .ok s' evs)
    (hd : decayCond cfg s'.epoch r = false) :
    cycleStep cfg ts f obj r s = .ok s' evs := by
  unfold cycleStep
  rw [h]
  simp only [hd, Bool.false_eq_true, if_false]

theorem outerLoop_zero (cfg : Cfg) (ts : Bool) (f : ℕ → ℕ → ℕ)
    (obj : ℕ → OVal) (r : ℤ) (s : St) :
    outerLoop cfg ts f obj 0 r s = .ok s [] := rfl

theorem outerLoop_succ_div (cfg : Cfg) (ts : Bool) (f : ℕ → ℕ → ℕ)
    (obj : ℕ → OVal) (n : ℕ) (r : ℤ) (s s' : St) (evs : List Ev)
    (h : cycleStep cfg ts f obj r s = .diverged s' evs) :
    outerLoop cfg ts f obj (n + 1) r s = .diverged s' evs := by
  simp only [outerLoop]
  rw [h]

theorem outerLoop_succ_ok_ok (cfg : Cfg) (ts : Bool) (f : ℕ → ℕ → ℕ)
    (obj : ℕ → OVal) (n : ℕ) (r : ℤ) (s s' s2 : St) (evs evs2 : List Ev)
    (h : cycleStep cfg ts f obj r s = .ok s' evs)
    (h2 : outerLoop cfg ts f obj n (r + 1) s' = .ok s2 evs2) :
    outerLoop cfg ts f obj (n + 1) r s = .ok s2 (evs ++ evs2) := by
  simp only [outerLoop]
  rw [h]
  dsimp only
  rw [h2]

theorem outerLoop_succ_ok_div (cfg : Cfg) (ts : Bool) (f : ℕ → ℕ → ℕ)
    (obj : ℕ → OVal) (n : ℕ) (r : ℤ) (s s' s2 : St) (evs evs2 : List Ev)
    (h : cycleStep cfg ts f obj r s = .ok s' evs)
    (h2 : outerLoop cfg ts f obj n (r + 1) s' = .diverged s2 evs2) :
    outerLoop cfg ts f obj (n + 1) r s = .diverged s2 (evs ++ evs2) := by
  simp only [outerLoop]
  rw [h]
  dsimp only
  rw [h2]

theorem decay_lr_events (cfg : Cfg) (ts : Bool) (obj : ℕ → OVal) (s : St)
    (hmode : s.mode = ts) (p : ℤ) (b : ℤ) :
    ∀ ev ∈ (decay_lr cfg ts obj s).2,
      patOK p ev = true ∧ modeEvOK cfg.switch_mode ts ev = true ∧
      isDecayEv ev = false ∧ isFinalizeEv ev = false ∧
      isYieldEv ev = false ∧ epochLe b ev = true := by
  intro ev hev
  rw [decay_lr_eq] at hev
  subst hmode
  by_cases hrb : cfg.restore_best = true
  · rw [if_pos hrb] at hev
    simp only [List.mem_cons, List.mem_singleton, List.not_mem_nil] at hev
    rcases hev with h | h | h | h
    all_goals first
      | (subst h
         cases hsw : cfg.switch_mode <;>
           simp [patOK, modeEvOK, isDecayEv, isFinalizeEv, isYieldEv, epochLe])
      | cases h
  · rw [if_neg hrb] at hev
    simp only [List.mem_singleton] at hev
    subst hev
    cases hsw : cfg.switch_mode <;>
      simp [patOK, modeEvOK, isDecayEv, isFinalizeEv, isYieldEv, epochLe]

theorem decay_lr_st (cfg : Cfg) (ts : Bool) (obj : ℕ → OVal) (s : St) :
    (decay_lr cfg ts obj s).1.epoch = s.epoch ∧
    ((decay_lr cfg ts obj s).1.mode = if cfg.switch_mode then ts
      else s.mode) := by
  rw [decay_lr_eq]
  by_cases hrb : cfg.restore_best = true
  · rw [if_pos hrb]
    exact ⟨rfl, rfl⟩
  · rw [if_neg hrb]
    exact ⟨rfl, rfl⟩

theorem decay_lr_no_yield (cfg : Cfg) (ts : Bool) (obj : ℕ → OVal)
    (s : St) : yieldEpochs (decay_lr cfg ts obj s).2 = [] := by
  rw [decay_lr_eq]
  by_cases hrb : cfg.restore_best = true
  · rw [if_pos hrb]
    simp [yieldEpochs]
  · rw [if_neg hrb]
    simp [yieldEpochs]

theorem cycleStep_spec (cfg : Cfg) (ts : Bool) (f : ℕ → ℕ → ℕ)
    (obj : ℕ → OVal) (r : ℤ) (s : St) (hmode : s.mode = ts) :
    (∀ ev ∈ (cycleStep cfg ts f obj r s).evs,
      patOK cfg.patience ev = true ∧
      modeEvOK cfg.switch_mode ts ev = true ∧
      isFinalizeEv ev = false ∧
      epochLe (cfg.max_iter - 1 + cfg.interval) ev = true) ∧
    (cycleStep cfg ts f obj r s).st.mode = ts ∧
    ∃ m : ℕ,
      yieldEpochs (cycleStep cfg ts f obj r s).evs =
        consecFrom (s.epoch + 1) m ∧
      ((cycleStep cfg ts f obj r s).isOk = true →
        (cycleStep cfg ts f obj r s).st.epoch = s.epoch + m) ∧
      ((cycleStep cfg ts f obj r s).isOk = false →
        (cycleStep cfg ts f obj r s).st.epoch = s.epoch + m + 1) := by
  have hs0pc : (0 : ℤ) ≤ ({ s with patience_counter := 0 } : St).patience_counter :=
    le_refl 0
  have hs0mode : ({ s with patience_counter := 0 } : St).mode = ts := hmode
  obtain ⟨iEv, iMode, m, iYe, iOk, iDiv⟩ :=
    innerLoop_spec cfg ts f obj ((cfg.max_iter - s.epoch).toNat + 1)
      { s with patience_counter := 0 } hs0pc hs0mode
  cases hin : innerLoop cfg ts f obj ((cfg.max_iter - s.epoch).toNat + 1)
      { s with patience_counter := 0 } with
  | diverged s' evs =>
    rw [hin] at iEv iMode iYe iOk iDiv
    simp only [Res.st, Res.evs, Res.isOk] at iEv iMode iYe iOk iDiv
    rw [cycleStep_div cfg ts f obj r s s' evs hin]
    simp only [Res.st, Res.evs, Res.isOk]
    refine ⟨?_, iMode, m, iYe, ?_, ?_⟩
    · intro ev hev
      obtain ⟨h1, h2, h3, h4, h5⟩ := iEv ev hev
      exact ⟨h1, h2, h4, h5⟩
    · intro h
      simp at h
    · intro _
      exact iDiv trivial
  | ok s' evs =>
    rw [hin] at iEv iMode iYe iOk iDiv
    simp only [Res.st, Res.evs, Res.isOk] at iEv iMode iYe iOk iDiv
    have hs'epoch : s'.epoch = s.epoch + m := iOk trivial
    by_cases hd : decayCond cfg s'.epoch r = true
    · rw [cycleStep_ok_decay cfg ts f obj r s s' evs hin hd]
      simp only [Res.st, Res.evs, Res.isOk]
      refine ⟨?_, ?_, m, ?_, ?_, ?_⟩
      · intro ev hev
        rcases List.mem_append.mp hev with h | h
        · obtain ⟨h1, h2, h3, h4, h5⟩ := iEv ev h
          exact ⟨h1, h2, h4, h5⟩
        · rcases List.mem_cons.mp h with h' | h'
          · subst h'
            simp [patOK, modeEvOK, isFinalizeEv, epochLe]
          · obtain ⟨h1, h2, h3, h4, h5, h6⟩ :=
              decay_lr_events cfg ts obj s' iMode cfg.patience
                (cfg.max_iter - 1 + cfg.interval) ev h'
            exact ⟨h1, h2, h4, h6⟩
      · have hm := (decay_lr_st cfg ts obj s').2
        rw [hm, iMode]
        cases cfg.switch_mode <;> rfl
      · rw [yieldEpochs_append, iYe]
        have h2 : yieldEpochs (Ev.decayEnter r :: (decay_lr cfg ts obj s').2) =
            yieldEpochs (decay_lr cfg ts obj s').2 := by
          simp [yieldEpochs]
        rw [h2, decay_lr_no_yield, List.append_nil]
      · intro _
        rw [(decay_lr_st cfg ts obj s').1, hs'epoch]
      · intro h
        simp at h
    · have hd' : decayCond cfg s'.epoch r = false := by
        cases h : decayCond cfg s'.epoch r
        · rfl
        · exact absurd h hd
      rw [cycleStep_ok_nodecay cfg ts f obj r s s' evs hin hd']
      simp only [Res.st, Res.evs, Res.isOk]
      refine ⟨?_, iMode, m, iYe, ?_, ?_⟩
      · intro ev hev
        obtain ⟨h1, h2, h3, h4, h5⟩ := iEv ev hev
        exact ⟨h1, h2, h4, h5⟩
      · intro _
        exact hs'epoch
      · intro h
        simp at h

theorem outerLoop_spec (cfg : Cfg) (ts : Bool) (f : ℕ → ℕ → ℕ)
    (obj : ℕ → OVal) (n : ℕ) :
    ∀ (r : ℤ) (s : St), s.mode = ts →
      (∀ ev ∈ (outerLoop cfg ts f obj n r s).evs,
        patOK cfg.patience ev = true ∧
        modeEvOK cfg.switch_mode ts ev = true ∧
        isFinalizeEv ev = false ∧
        epochLe (cfg.max_iter - 1 + cfg.interval) ev = true) ∧
      (outerLoop cfg ts f obj n r s).st.mode = ts ∧
      ∃ m : ℕ,
        yieldEpochs (outerLoop cfg ts f obj n r s).evs =
          consecFrom (s.epoch + 1) m ∧
        ((outerLoop cfg ts f obj n r s).isOk = true →
          (outerLoop cfg ts f obj n r s).st.epoch = s.epoch + m) ∧
        ((outerLoop cfg ts f obj n r s).isOk = false →
          (outerLoop cfg ts f obj n r s).st.epoch = s.epoch + m + 1) := by
  induction n with
  | zero =>
    intro r s hmode
    rw [outerLoop_zero]
    refine ⟨?_, hmode, 0, ?_, ?_, ?_⟩
    · intro ev hev
      simp [Res.evs] at hev
    · simp [Res.evs, yieldEpochs, consecFrom]
    · intro _
      simp [Res.st]
    · intro h
      simp [Res.isOk] at h
  | succ n ih =>
    intro r s hmode
    obtain ⟨cEv, cMode, mc, cYe, cOk, cDiv⟩ :=
      cycleStep_spec cfg ts f obj r s hmode
    cases hcs : cycleStep cfg ts f obj r s with
    | diverged s' evs =>
      rw [hcs] at cEv cMode cYe cOk cDiv
      simp only [Res.st, Res.evs, Res.isOk] at cEv cMode cYe cOk cDiv
      rw [outerLoop_succ_div cfg ts f obj n r s s' evs hcs]
      simp only [Res.st, Res.evs, Res.isOk]
      refine ⟨cEv, cMode, mc, cYe, ?_, ?_⟩
      · intro h
        simp at h
      · intro _
        exact cDiv trivial
    | ok s' evs =>
      rw [hcs] at cEv cMode cYe cOk cDiv
      simp only [Res.st, Res.evs, Res.isOk] at cEv cMode cYe cOk cDiv
      have hs'epoch : s'.epoch = s.epoch + mc := cOk trivial
      obtain ⟨oEv, oMode, m2, oYe, oOk, oDiv⟩ := ih (r + 1) s' cMode
      cases hout : outerLoop cfg ts f obj n (r + 1) s' with
      | ok s2 evs2 =>
        rw [hout] at oEv oMode oYe oOk oDiv
        simp only [Res.st, Res.evs, Res.isOk] at oEv oMode oYe oOk oDiv
        rw [outerLoop_succ_ok_ok cfg ts f obj n r s s' s2 evs evs2 hcs hout]
        simp only [Res.st, Res.evs, Res.isOk]
        refine ⟨?_, oMode, mc + m2, ?_, ?_, ?_⟩
        · intro ev hev
          rcases List.mem_append.mp hev with h | h
          · exact cEv ev h
          · exact oEv ev h
        · rw [yieldEpochs_append, cYe, oYe, hs'epoch]
          have hstart : s.epoch + mc + 1 = (s.epoch + 1) + (mc : ℤ) := by
            omega
          rw [hstart, consecFrom_append]
        · intro _
          have h2 := oOk trivial
          rw [hs'epoch] at h2
          rw [h2]
          push_cast
          ring
        · intro h
          simp at h
      | diverged s2 evs2 =>
        rw [hout] at oEv oMode oYe oOk oDiv
        simp only [Res.st, Res.evs, Res.isOk] at oEv oMode oYe oOk oDiv
        rw [outerLoop_succ_ok_div cfg ts f obj n r s s' s2 evs evs2 hcs hout]
        simp only [Res.st, Res.evs, Res.isOk]
        refine ⟨?_, oMode, mc + m2, ?_, ?_, ?_⟩
        · intro ev hev
          rcases List.mem_append.mp hev with h | h
          · exact cEv ev h
          · exact oEv ev h
        · rw [yieldEpochs_append, cYe, oYe, hs'epoch]
          have hstart : s.epoch + mc + 1 = (s.epoch + 1) + (mc : ℤ) := by
            omega
          rw [hstart, consecFrom_append]
        · intro h
          simp at h
        · intro _
          have h2 := oDiv trivial
          rw [hs'epoch] at h2
          rw [h2]
          push_cast
          ring

/-! ## Top-level run structure -/

theorem configWarns_all_warn (sched : Sched) (nwe : ℤ) :
    ∀ ev ∈ configWarns sched nwe, ev = Ev.warn := by
  intro ev hev
  unfold configWarns at hev
  rcases List.mem_append.mp hev with h | h
  · rcases sched with _ | p | ⟨w, m⟩ <;> simp_all
    cases w <;> simp_all
  · simp only [] at h
    split at h
    · simp_all
    · split at h <;> simp_all

theorem early_stopping_run_ok (cfg : Cfg) (f : ℕ → ℕ → ℕ)
    (obj : ℕ → OVal) (m0 : Bool) (s' : St) (evs : List Ev)
    (hout : outerLoop (effCfgOf cfg) m0 f obj cfg.lr_decay_steps.toNat 0
      { epoch := cfg.start, patience_counter := 0, current := obj 0,
        best := obj 0, bestState := 0, modelState := 0, nCalls := 1,
        nYields := 0, mode := m0 } = .ok s' evs) :
    early_stopping cfg f obj m0 =
      ((finalize (effCfgOf cfg) m0 obj s').1,
        Ev.evalObj m0 (if cfg.switch_mode then false else m0) m0 (obj 0) ::
        Ev.snapshot 0 ::
        (configWarns cfg.scheduler cfg.number_warmup_epochs ++
          (evs ++
            Ev.finalizeEnter :: (finalize (effCfgOf cfg) m0 obj s').2))) := by
  unfold early_stopping evalObjective
  cases hsw : cfg.switch_mode <;> simp_all

theorem early_stopping_run_div (cfg : Cfg) (f : ℕ → ℕ → ℕ)
    (obj : ℕ → OVal) (m0 : Bool) (s' : St) (evs : List Ev)
    (hout : outerLoop (effCfgOf cfg) m0 f obj cfg.lr_decay_steps.toNat 0
      { epoch := cfg.start, patience_counter := 0, current := obj 0,
        best := obj 0, bestState := 0, modelState := 0, nCalls := 1,
        nYields := 0, mode := m0 } = .diverged s' evs) :
    early_stopping cfg f obj m0 =
      ((finalize (effCfgOf cfg) m0 obj s').1,
        Ev.evalObj m0 (if cfg.switch_mode then false else m0) m0 (obj 0) ::
        Ev.snapshot 0 ::
        (configWarns cfg.scheduler cfg.number_warmup_epochs ++
          (evs ++
            Ev.finalizeEnter :: (finalize (effCfgOf cfg) m0 obj s').2))) := by
  unfold early_stopping evalObjective
  cases hsw : cfg.switch_mode <;> simp_all

theorem finalize_events (cfg : Cfg) (ts : Bool) (obj : ℕ → OVal) (s : St)
    (hmode : s.mode = ts) (p b : ℤ) :
    ∀ ev ∈ (finalize cfg ts obj s).2,
      patOK p ev = true ∧ modeEvOK cfg.switch_mode ts ev = true ∧
      isDecayEv ev = false ∧ isFinalizeEv ev = false ∧
      isYieldEv ev = false ∧ epochLe b ev = true := by
  intro ev hev
  rw [finalize_eq] at hev
  subst hmode
  simp only [List.mem_cons, List.mem_append, List.mem_singleton,
    List.not_mem_nil, or_false] at hev
  rcases hev with h | h | h
  · subst h
    cases hsw : cfg.switch_mode <;>
      simp [patOK, modeEvOK, isDecayEv, isFinalizeEv, isYieldEv, epochLe]
  · by_cases hrb : cfg.restore_best = true
    · rw [if_pos hrb] at h
      simp only [List.mem_singleton] at h
      subst h
      simp [patOK, modeEvOK, isDecayEv, isFinalizeEv, isYieldEv, epochLe]
    · rw [if_neg hrb] at h
      simp at h
  · subst h
    cases hsw : cfg.switch_mode <;>
      simp [patOK, modeEvOK, isDecayEv, isFinalizeEv, isYieldEv, epochLe]

theorem modeFrame_of_modeEvOK (sw ts : Bool) (ev : Ev)
    (h : modeEvOK sw ts ev = true) : modeFrame sw ev = true := by
  cases ev with
  | evalObj mb md ma v =>
    simp only [modeEvOK, Bool.and_eq_true, beq_iff_eq] at h
    obtain ⟨⟨h1, h2⟩, h3⟩ := h
    cases sw <;> simp_all [modeFrame]
  | trackLog v => rfl
  | yielded e v => rfl
  | warmupStep e => rfl
  | mainStep e a => rfl
  | patienceUpd a b c => rfl
  | snapshot i => rfl
  | restoreBest i => rfl
  | decayEnter r => rfl
  | finalizeEnter => rfl
  | warn => rfl

theorem evalBoundary_no_decay (cfg : Cfg) (ts : Bool) (obj : ℕ → OVal)
    (s : St) : ∀ ev ∈ (evalBoundary cfg ts obj s).2, isDecayEv ev = false := by
  intro ev hev
  rw [evalBoundary_eq] at hev
  simp only [List.mem_cons, List.mem_append] at hev
  rcases hev with h | h | h
  · subst h
    rfl
  · have hs := schedStep_sched_events cfg.scheduler
      cfg.number_warmup_epochs s.epoch (obj s.nCalls) ev h
    cases ev <;> simp_all [isSchedEv, isDecayEv]
  · by_cases himp : improves cfg.maximize (obj s.nCalls).val s.best.val
        cfg.tolerance = true
    · rw [if_pos himp] at h
      simp only [List.mem_cons, List.not_mem_nil, or_false] at h
      rcases h with h | h <;> subst h <;> rfl
    · rw [if_neg himp] at h
      simp only [List.mem_singleton] at h
      subst h
      rfl

theorem innerLoop_no_decay (cfg : Cfg) (ts : Bool) (f : ℕ → ℕ → ℕ)
    (obj : ℕ → OVal) (fuel : ℕ) :
    ∀ s : St, ∀ ev ∈ (innerLoop cfg ts f obj fuel s).evs,
      isDecayEv ev = false := by
  induction fuel with
  | zero =>
    intro s ev hev
    simp [innerLoop, Res.evs] at hev
  | succ fuel ih =>
    intro s ev hev
    by_cases hg : s.patience_counter < cfg.patience ∧ s.epoch < cfg.max_iter
    · obtain ⟨tEv, _, _, _, _, _, _, _, _, _, _, _⟩ :=
        ticks_spec cfg.tracker f cfg.interval s
      cases hticks : ticks cfg.tracker f cfg.interval s with
      | diverged st evs =>
        rw [innerLoop_succ_div cfg ts f obj fuel s st evs hg hticks] at hev
        simp only [Res.evs] at hev
        rw [hticks] at tEv
        simp only [Res.evs] at tEv
        exact (tickEv_props 0 false false ev (tEv ev hev)).2.2.1
      | ok s' evs =>
        cases hib : innerLoop cfg ts f obj fuel
            (evalBoundary cfg ts obj s').1 with
        | ok s2 evs2 =>
          rw [innerLoop_succ_ok_ok cfg ts f obj fuel s s' s2 evs evs2 hg
            hticks hib] at hev
          simp only [Res.evs] at hev
          rw [hticks] at tEv
          simp only [Res.evs] at tEv
          rcases List.mem_append.mp hev with h | h
          · rcases List.mem_append.mp h with h' | h'
            · exact (tickEv_props 0 false false ev (tEv ev h')).2.2.1
            · exact evalBoundary_no_decay cfg ts obj s' ev h'
          · have := ih (evalBoundary cfg ts obj s').1
            rw [hib] at this
            simp only [Res.evs] at this
            exact this ev h
        | diverged s2 evs2 =>
          rw [innerLoop_succ_ok_div cfg ts f obj fuel s s' s2 evs evs2 hg
            hticks hib] at hev
          simp only [Res.evs] at hev
          rw [hticks] at tEv
          simp only [Res.evs] at tEv
          rcases List.mem_append.mp hev with h | h
          · rcases List.mem_append.mp h with h' | h'
            · exact (tickEv_props 0 false false ev (tEv ev h')).2.2.1
            · exact evalBoundary_no_decay cfg ts obj s' ev h'
          · have := ih (evalBoundary cfg ts obj s').1
            rw [hib] at this
            simp only [Res.evs] at this
            exact this ev h
    · rw [innerLoop_stop cfg ts f obj (fuel + 1) s hg] at hev
      simp [Res.evs] at hev

theorem decayCond_false_of_maxiter (cfg : Cfg) (e r : ℤ)
    (h : cfg.max_iter ≤ e) : decayCond cfg e r = false := by
  unfold decayCond
  have h1 : decide (e < cfg.max_iter) = false := by
    rw [decide_eq_false_iff_not]
    omega
  rw [h1]
  rfl

theorem outerLoop_stop (cfg : Cfg) (ts : Bool) (f : ℕ → ℕ → ℕ)
    (obj : ℕ → OVal) (n : ℕ) :
    ∀ (r : ℤ) (s : St), cfg.max_iter ≤ s.epoch → s.patience_counter = 0 →
      outerLoop cfg ts f obj n r s = .ok s [] := by
  induction n with
  | zero =>
    intro r s _ _
    rfl
  | succ n ih =>
    intro r s hmax hpc
    have hs0 : ({ s with patience_counter := 0 } : St) = s := by
      obtain ⟨e, pc, c, b, bs, ms, nc, ny, md⟩ := s
      simp only at hpc
      rw [hpc]
    have hin : innerLoop cfg ts f obj ((cfg.max_iter - s.epoch).toNat + 1)
        { s with patience_counter := 0 } =
        .ok { s with patience_counter := 0 } [] := by
      apply innerLoop_stop
      dsimp only
      intro hcon
      omega
    have hcs : cycleStep cfg ts f obj r s =
        .ok { s with patience_counter := 0 } [] :=
      cycleStep_ok_nodecay cfg ts f obj r s _ [] hin
        (decayCond_false_of_maxiter cfg _ r hmax)
    rw [hs0] at hcs
    have hrec := ih (r + 1) s hmax hpc
    have hfin := outerLoop_succ_ok_ok cfg ts f obj n r s s s [] [] hcs hrec
    simpa using hfin

/-! ## Claim C6 -/

/-- C6 counterexample: the spec says the sign convention multiplies both
objectives by `-1` when minimizing; source line 126
(`maximize = -1 if maximize else 1`) multiplies by `-1` when maximizing
and by `1` when minimizing, so at `maximize = false` the multiplier is
`1`, not `-1`. -/
theorem C6_sign_cex : maximizeSign false = 1 ∧ ¬ maximizeSign false = -1 := by
  constructor
  · rfl
  · intro h
    rw [maximizeSign] at h
    norm_num at h

/-- C6 amended: the sign convention multiplies both objectives by `-1`
when MAXIMIZING (so every internal comparison is a minimization), and
the internal comparison is equivalent to the directional one:
improvement iff `current > best + tolerance` when maximizing and
`current < best - tolerance` when minimizing. -/
theorem C6_sign_amended :
    (maximizeSign true = -1 ∧ maximizeSign false = 1) ∧
    ∀ (mx : Bool) (cur best tol : ℚ),
      improves mx cur best tol = true ↔
        (if mx = true then best + tol < cur else cur < best - tol) :=
  ⟨⟨rfl, rfl⟩, improves_iff⟩

/-! ## Claim C8 -/

theorem loadVal_copyVal (v : SVal) : loadVal v (copyVal v) = v := by
  cases v with
  | tensor d c => cases c <;> simp [copyVal, loadVal]
  | other x => simp [copyVal, loadVal]

/-- C8: restoring a freshly captured snapshot
(`load_state_dict m (copy_state m)`) leaves the model's observable state
unchanged, for tensor and non-tensor entries alike; state-dict keys are
unique (it is a Python dict), which the `Nodup` hypothesis records. -/
theorem C8_roundtrip (m : List (ℕ × SVal))
    (h : (m.map Prod.fst).Nodup) :
    load_state_dict m (copy_state m) = m := by
  induction m with
  | nil => rfl
  | cons p t ih =>
    obtain ⟨k, v⟩ := p
    simp only [List.map_cons, List.nodup_cons, List.mem_map] at h
    obtain ⟨hk, ht⟩ := h
    unfold load_state_dict copy_state
    simp only [List.map_cons]
    have hhead : List.lookup k ((k, copyVal v) ::
        t.map (fun p => (p.1, copyVal p.2))) = some (copyVal v) := by
      simp [List.lookup]
    congr 1
    · rw [hhead]
      dsimp only
      rw [loadVal_copyVal]
    · have htail : ∀ q ∈ t,
          (match List.lookup q.1 ((k, copyVal v) ::
              t.map (fun p => (p.1, copyVal p.2))) with
           | some w => (q.1, loadVal q.2 w)
           | none => q) =
          (match List.lookup q.1 (t.map (fun p => (p.1, copyVal p.2))) with
           | some w => (q.1, loadVal q.2 w)
           | none => q) := by
        intro q hq
        have hne : (q.1 == k) = false := by
          rw [beq_eq_false_iff_ne]
          intro hqk
          exact hk ⟨q, hq, hqk⟩
        rw [List.lookup_cons]
        simp [hne]
      rw [List.map_congr_left htail]
      have := ih ht
      unfold load_state_dict copy_state at this
      exact this

/-- Witness for C8 at a concrete model state. -/
theorem C8_roundtrip_witness :
    (mExample.map Prod.fst).Nodup ∧
    load_state_dict mExample (copy_state mExample) = mExample :=
  ⟨by decide, C8_roundtrip mExample (by decide)⟩

/-! ## Decide-based counterexamples

`Rat.mul` and `Rat.sub` are `@[irreducible]` in Batteries; the concrete
runs below are evaluated by the kernel, so both are made semireducible
locally to this section. -/

section ConcreteRuns

attribute [local semireducible] Rat.mul Rat.sub

set_option maxRecDepth 4000

/-- C2 counterexample. -/
theorem C2_decay_cex :
    Ev.decayEnter 1 ∈ (early_stopping cfgTwo noMut (objConst ⟨0, true⟩)
      true).2 ∧ cfgTwo.lr_decay_steps = 2 := by
  constructor
  · decide
  · rfl

/-- C3 counterexample. -/
theorem C3_nonfinite_cex :
    Ev.trackLog ⟨0, false⟩ ∈ (early_stopping cfgDiv noMut
      (objConst ⟨0, false⟩) true).2 := by
  decide

/-- C4 counterexample. -/
theorem C4_epoch_cex :
    Ev.yielded 4 ⟨1, true⟩ ∈ (early_stopping cfgFour noMut
      (objConst ⟨1, true⟩) true).2 ∧ ¬ ((4 : ℤ) ≤ cfgFour.max_iter) := by
  constructor
  · decide
  · decide

/-- C5 counterexample. -/
theorem C5_warmup_cex :
    Ev.patienceUpd 5 5 ⟨0, true⟩ ∈ (early_stopping cfgWarm noMut
      (objConst ⟨0, true⟩) true).2 ∧
    Ev.warmupStep 5 ∉ (early_stopping cfgWarm noMut
      (objConst ⟨0, true⟩) true).2 := by
  constructor
  · decide
  · decide

/-- C5 amended scheduler-event characterization. -/
theorem C5_warmup_amended :
    ((early_stopping cfgWarm noMut (objConst ⟨0, true⟩) true).2.filter
      isSchedEv) =
      [Ev.warmupStep 1, Ev.warmupStep 2, Ev.warmupStep 3,
       Ev.warmupStep 4] := by
  decide

end ConcreteRuns

/-! ## Assembled trace facts -/

theorem yieldEpochs_cons_none (ev : Ev) (h : isYieldEv ev = false)
    (l : List Ev) : yieldEpochs (ev :: l) = yieldEpochs l := by
  cases ev <;> simp_all [yieldEpochs, isYieldEv]

theorem early_stopping_pieces (cfg : Cfg) (f : ℕ → ℕ → ℕ)
    (obj : ℕ → OVal) (m0 : Bool) :
    ∃ (s' : St) (evs : List Ev),
      (early_stopping cfg f obj m0).2 =
        Ev.evalObj m0 (if cfg.switch_mode then false else m0) m0 (obj 0) ::
        Ev.snapshot 0 ::
        (configWarns cfg.scheduler cfg.number_warmup_epochs ++
          (evs ++
            Ev.finalizeEnter :: (finalize (effCfgOf cfg) m0 obj s').2)) ∧
      (early_stopping cfg f obj m0).1 =
        (finalize (effCfgOf cfg) m0 obj s').1 ∧
      s'.mode = m0 ∧
      (∀ ev ∈ evs,
        patOK cfg.patience ev = true ∧
        modeEvOK cfg.switch_mode m0 ev = true ∧
        isFinalizeEv ev = false ∧
        epochLe (cfg.max_iter - 1 + cfg.interval) ev = true) ∧
      ∃ m : ℕ, yieldEpochs evs = consecFrom (cfg.start + 1) m := by
  obtain ⟨oEv, oMode, m, oYe, oOk, oDiv⟩ :=
    outerLoop_spec (effCfgOf cfg) m0 f obj cfg.lr_decay_steps.toNat 0
      { epoch := cfg.start, patience_counter := 0, current := obj 0,
        best := obj 0, bestState := 0, modelState := 0, nCalls := 1,
        nYields := 0, mode := m0 } rfl
  cases hout : outerLoop (effCfgOf cfg) m0 f obj cfg.lr_decay_steps.toNat 0
      { epoch := cfg.start, patience_counter := 0, current := obj 0,
        best := obj 0, bestState := 0, modelState := 0, nCalls := 1,
        nYields := 0, mode := m0 } with
  | ok s' evs =>
    rw [hout] at oEv oMode oYe
    simp only [Res.st, Res.evs] at oEv oMode oYe
    have hrun := early_stopping_run_ok cfg f obj m0 s' evs hout
    refine ⟨s', evs, ?_, ?_, oMode, ?_, m, ?_⟩
    · rw [hrun]
    · rw [hrun]
    · intro ev hev
      obtain ⟨h1, h2, h3, h4⟩ := oEv ev hev
      exact ⟨h1, h2, h3, h4⟩
    · exact oYe
  | diverged s' evs =>
    rw [hout] at oEv oMode oYe
    simp only [Res.st, Res.evs] at oEv oMode oYe
    have hrun := early_stopping_run_div cfg f obj m0 s' evs hout
    refine ⟨s', evs, ?_, ?_, oMode, ?_, m, ?_⟩
    · rw [hrun]
    · rw [hrun]
    · intro ev hev
      obtain ⟨h1, h2, h3, h4⟩ := oEv ev hev
      exact ⟨h1, h2, h3, h4⟩
    · exact oYe

theorem early_stopping_trace_events (cfg : Cfg) (f : ℕ → ℕ → ℕ)
    (obj : ℕ → OVal) (m0 : Bool) :
    ∀ ev ∈ (early_stopping cfg f obj m0).2,
      patOK cfg.patience ev = true ∧
      modeFrame cfg.switch_mode ev = true ∧
      epochLe (cfg.max_iter - 1 + cfg.interval) ev = true := by
  obtain ⟨s', evs, htr, hst, hmode, hevs, m, hye⟩ :=
    early_stopping_pieces cfg f obj m0
  intro ev hev
  rw [htr] at hev
  simp only [List.mem_cons, List.mem_append] at hev
  rcases hev with h | h | h | h | h | h
  · subst h
    cases hsw : cfg.switch_mode <;>
      simp [patOK, modeFrame, epochLe]
  · subst h
    simp [patOK, modeFrame, epochLe]
  · have := configWarns_all_warn cfg.scheduler cfg.number_warmup_epochs ev h
    subst this
    simp [patOK, modeFrame, epochLe]
  · obtain ⟨h1, h2, h3, h4⟩ := hevs ev h
    exact ⟨h1, modeFrame_of_modeEvOK cfg.switch_mode m0 ev h2, h4⟩
  · subst h
    simp [patOK, modeFrame, epochLe]
  · obtain ⟨h1, h2, h3, h4, h5, h6⟩ :=
      finalize_events (effCfgOf cfg) m0 obj s' hmode cfg.patience
        (cfg.max_iter - 1 + cfg.interval) ev h
    exact ⟨h1, modeFrame_of_modeEvOK cfg.switch_mode m0 ev h2, h6⟩

theorem early_stopping_trace_yields (cfg : Cfg) (f : ℕ → ℕ → ℕ)
    (obj : ℕ → OVal) (m0 : Bool) :
    ∃ m : ℕ, yieldEpochs (early_stopping cfg f obj m0).2 =
      consecFrom (cfg.start + 1) m := by
  obtain ⟨s', evs, htr, hst, hmode, hevs, m, hye⟩ :=
    early_stopping_pieces cfg f obj m0
  refine ⟨m, ?_⟩
  rw [htr]
  rw [yieldEpochs_cons_none
      (Ev.evalObj m0 (if cfg.switch_mode then false else m0) m0 (obj 0)) rfl,
    yieldEpochs_cons_none (Ev.snapshot 0) rfl,
    yieldEpochs_append, yieldEpochs_append]
  have hw : yieldEpochs (configWarns cfg.scheduler
      cfg.number_warmup_epochs) = [] := by
    apply yieldEpochs_nil_of_no_yield
    intro ev hev
    have := configWarns_all_warn cfg.scheduler cfg.number_warmup_epochs ev hev
    subst this
    rfl
  have hf : yieldEpochs (Ev.finalizeEnter ::
      (finalize (effCfgOf cfg) m0 obj s').2) = [] := by
    rw [yieldEpochs_cons_none Ev.finalizeEnter rfl]
    apply yieldEpochs_nil_of_no_yield
    intro ev hev
    exact (finalize_events (effCfgOf cfg) m0 obj s' hmode 0 0 ev hev).2.2.2.2.1
  rw [hw, hf, hye, List.nil_append, List.append_nil]

/-! ## Claim C1 -/

/-- C1: at every evaluation boundary, an improvement is recorded exactly
when the objective beats the best by more than `tolerance` in the
maximizing direction; on improvement a snapshot of the current model
state becomes `best_state`, `best_objective` is updated and
`patience_counter` resets to 0, otherwise `patience_counter` increments
by 1; and along any run every reported `patience_counter` value stays
within `[0, patience]`. -/
theorem C1_improvement_and_patience :
    (∀ (mx : Bool) (cur best tol : ℚ),
      improves mx cur best tol = true ↔
        (if mx = true then best + tol < cur else cur < best - tol)) ∧
    (∀ (cfg : Cfg) (ts : Bool) (obj : ℕ → OVal) (s : St),
      (evalBoundary cfg ts obj s).1.patience_counter =
        (if improves cfg.maximize (obj s.nCalls).val s.best.val
            cfg.tolerance then 0 else s.patience_counter + 1) ∧
      (evalBoundary cfg ts obj s).1.best =
        (if improves cfg.maximize (obj s.nCalls).val s.best.val
            cfg.tolerance then obj s.nCalls else s.best) ∧
      (evalBoundary cfg ts obj s).1.bestState =
        (if improves cfg.maximize (obj s.nCalls).val s.best.val
            cfg.tolerance then s.modelState else s.bestState) ∧
      (evalBoundary cfg ts obj s).2.countP isSnapshotEv =
        (if improves cfg.maximize (obj s.nCalls).val s.best.val
            cfg.tolerance then 1 else 0)) ∧
    (∀ (cfg : Cfg) (f : ℕ → ℕ → ℕ) (obj : ℕ → OVal) (m0 : Bool),
      (early_stopping cfg f obj m0).2.all (patOK cfg.patience) = true) := by
  refine ⟨improves_iff, ?_, ?_⟩
  · intro cfg ts obj s
    have hsched0 : (schedStep cfg.scheduler cfg.number_warmup_epochs
        s.epoch (obj s.nCalls)).countP isSnapshotEv = 0 := by
      rcases schedStep_cases cfg.scheduler cfg.number_warmup_epochs
        s.epoch (obj s.nCalls) with h | h | h | h <;> rw [h] <;> rfl
    rw [evalBoundary_eq]
    by_cases himp : improves cfg.maximize (obj s.nCalls).val s.best.val
        cfg.tolerance = true
    · simp [himp, List.countP_cons, List.countP_append, hsched0,
        isSnapshotEv]
    · rw [Bool.not_eq_true] at himp
      simp [himp, List.countP_cons, List.countP_append, hsched0,
        isSnapshotEv]
  · intro cfg f obj m0
    rw [List.all_eq_true]
    intro ev hev
    exact (early_stopping_trace_events cfg f obj m0 ev hev).1

/-! ## Claim C7 -/

/-- C7: every objective evaluation performed by the controller (whatever
the configuration and however the caller drives it) runs the objective
in inference mode when `switch_mode` is set and leaves the model's
training flag exactly as it was before the evaluation. -/
theorem C7_mode_frame :
    ∀ (cfg : Cfg) (f : ℕ → ℕ → ℕ) (obj : ℕ → OVal) (m0 : Bool),
      (early_stopping cfg f obj m0).2.all
        (modeFrame cfg.switch_mode) = true := by
  intro cfg f obj m0
  rw [List.all_eq_true]
  intro ev hev
  exact (early_stopping_trace_events cfg f obj m0 ev hev).2.1

/-! ## Claim C4 (amended) -/

/-- C4 amended: the epoch counter starts at `start`, increments exactly
once per caller tick and is monotone — the yielded epochs are the
consecutive integers from `start + 1` — but it is bounded only by
`max_iter - 1 + interval`, not by `max_iter`: the guard `epoch <
max_iter` is checked before a block of `interval` ticks, each of which
increments and yields. -/
theorem C4_epoch_amended :
    ∀ (cfg : Cfg) (f : ℕ → ℕ → ℕ) (obj : ℕ → OVal) (m0 : Bool),
      (∃ m : ℕ, yieldEpochs (early_stopping cfg f obj m0).2 =
        consecFrom (cfg.start + 1) m) ∧
      (early_stopping cfg f obj m0).2.all
        (epochLe (cfg.max_iter - 1 + cfg.interval)) = true := by
  intro cfg f obj m0
  refine ⟨early_stopping_trace_yields cfg f obj m0, ?_⟩
  rw [List.all_eq_true]
  intro ev hev
  exact (early_stopping_trace_events cfg f obj m0 ev hev).2.2

/-! ## Claim C2 (amended) -/

/-- C2 amended: for every executed decay cycle (`repeat <
lr_decay_steps`) the conjunct `repeat < lr_decay_steps` of the source's
guard is always true, so after the patience loop exits normally the
decay transition fires iff `epoch < max_iter` and `lr_decay_steps > 1` —
including at the end of the final decay cycle. -/
theorem C2_decay_amended :
    (∀ (cfg : Cfg) (e r : ℤ), r < cfg.lr_decay_steps →
      decayCond cfg e r =
        (decide (e < cfg.max_iter) && decide (1 < cfg.lr_decay_steps))) ∧
    (∀ (cfg : Cfg) (ts : Bool) (f : ℕ → ℕ → ℕ) (obj : ℕ → OVal) (r : ℤ)
      (s s' : St) (evs' : List Ev),
      innerLoop cfg ts f obj ((cfg.max_iter - s.epoch).toNat + 1)
        { s with patience_counter := 0 } = .ok s' evs' →
      (Ev.decayEnter r ∈ (cycleStep cfg ts f obj r s).evs ↔
        decayCond cfg s'.epoch r = true)) := by
  constructor
  · intro cfg e r hr
    unfold decayCond
    have h1 : decide (r < cfg.lr_decay_steps) = true := by
      rw [decide_eq_true_eq]
      exact hr
    rw [h1, Bool.and_true]
  · intro cfg ts f obj r s s' evs' hin
    constructor
    · intro hmem
      by_cases hd : decayCond cfg s'.epoch r = true
      · exact hd
      · exfalso
        have hd' : decayCond cfg s'.epoch r = false := by
          rw [← Bool.not_eq_true]
          exact hd
        rw [cycleStep_ok_nodecay cfg ts f obj r s s' evs' hin hd'] at hmem
        simp only [Res.evs] at hmem
        have := innerLoop_no_decay cfg ts f obj
          ((cfg.max_iter - s.epoch).toNat + 1)
          { s with patience_counter := 0 }
        rw [hin] at this
        simp only [Res.evs] at this
        have hfalse := this (Ev.decayEnter r) hmem
        simp [isDecayEv] at hfalse
    · intro hd
      rw [cycleStep_ok_decay cfg ts f obj r s s' evs' hin hd]
      simp only [Res.evs]
      rw [List.mem_append]
      right
      exact List.mem_cons_self _ _

/-- Witness for C2 (amended) at concrete inputs. -/
theorem C2_decay_witness :
    decayCond cfgTwo 5 1 =
      (decide ((5 : ℤ) < cfgTwo.max_iter) &&
        decide (1 < cfgTwo.lr_decay_steps)) ∧
    (Ev.decayEnter 0 ∈ (cycleStep cfgTwo true noMut (objConst ⟨0, true⟩) 0
        stHi).evs ↔
      decayCond cfgTwo
        ({ stHi with patience_counter := 0 } : St).epoch 0 = true) :=
  ⟨C2_decay_amended.1 cfgTwo 5 1 (by decide),
   C2_decay_amended.2 cfgTwo true noMut (objConst ⟨0, true⟩) 0 stHi
     { stHi with patience_counter := 0 } [] rfl⟩

/-! ## Claims C3 (amended), C9 and C10 -/

section ConcreteRunsB

attribute [local semireducible] Rat.mul Rat.sub

set_option maxRecDepth 4000

/-- C3 amended: on a tick whose `current_objective` is non-finite, the
epoch is still incremented and the tracker (when present) IS invoked
with the non-finite value — the tracker call at source line 168 precedes
the finiteness check at line 169 — and only then does the check
short-circuit the rest: no value is yielded, no scheduler or patience
logic runs, and the controller finalizes (restoring best state per
`restore_best`) and terminates immediately, regardless of
`patience_counter` or remaining decay cycles. -/
theorem C3_nonfinite_amended :
    (∀ (tr : Bool) (f : ℕ → ℕ → ℕ) (n : ℕ) (s : St),
      s.current.finite = false →
      ticks tr f (n + 1) s =
        .diverged { s with epoch := s.epoch + 1 }
          ((if tr then [Ev.trackLog s.current] else []) ++ [Ev.warn])) ∧
    (early_stopping cfgDiv noMut (objConst ⟨0, false⟩) true).2 =
      [Ev.evalObj true false true ⟨0, false⟩, Ev.snapshot 0,
       Ev.trackLog ⟨0, false⟩, Ev.warn, Ev.finalizeEnter,
       Ev.evalObj true false true ⟨0, false⟩, Ev.restoreBest 0,
       Ev.evalObj true false true ⟨0, false⟩] :=
  ⟨ticks_succ_div, by decide⟩

/-- Witness for C3 (amended) at a concrete state. -/
theorem C3_nonfinite_witness :
    ticks true noMut 3 stDiv =
      .diverged { stDiv with epoch := stDiv.epoch + 1 }
        ((if true then [Ev.trackLog stDiv.current] else []) ++ [Ev.warn]) :=
  C3_nonfinite_amended.1 true noMut 2 stDiv rfl

/-- C9: on every termination path — decay-budget exhaustion, reaching
`max_iter`, or divergence — the run ends with `finalize`, and `finalize`
invokes the objective exactly twice for both values of `restore_best`
(once before any restore, once inside the logged message); in the
concrete divergent run the objective is evaluated 3 times in total, so
it is evaluated again even after a non-finite value was detected. -/
theorem C9_finalize_two_evals :
    (∀ (c : Cfg) (t : Bool) (ob : ℕ → OVal) (st : St),
      (finalize c t ob st).2.countP isEvalObjEv = 2 ∧
      ∃ e1 e2, (finalize c t ob st).2 =
          e1 :: ((if c.restore_best then [Ev.restoreBest st.bestState]
            else []) ++ [e2]) ∧
        isEvalObjEv e1 = true ∧ isEvalObjEv e2 = true) ∧
    (∀ (cfg : Cfg) (f : ℕ → ℕ → ℕ) (obj : ℕ → OVal) (m0 : Bool),
      ∃ pre s', (early_stopping cfg f obj m0).2 =
        pre ++ Ev.finalizeEnter :: (finalize (effCfgOf cfg) m0 obj s').2) ∧
    (early_stopping cfgDiv noMut (objConst ⟨0, false⟩) true).2.countP
      isEvalObjEv = 3 := by
  refine ⟨?_, ?_, ?_⟩
  · intro c t ob st
    constructor
    · rw [finalize_eq]
      by_cases hrb : c.restore_best = true <;>
        simp [hrb, List.countP_cons, List.countP_append, isEvalObjEv]
    · refine ⟨Ev.evalObj st.mode (if c.switch_mode then false else st.mode)
        (if c.switch_mode then t else st.mode) (ob st.nCalls),
        Ev.evalObj (if c.switch_mode then t else st.mode)
          (if c.switch_mode then false else st.mode)
          (if c.switch_mode then t else st.mode) (ob (st.nCalls + 1)),
        ?_, rfl, rfl⟩
      rw [finalize_eq]
  · intro cfg f obj m0
    obtain ⟨s', evs, htr, hst, hmode, hevs, hye⟩ :=
      early_stopping_pieces cfg f obj m0
    refine ⟨Ev.evalObj m0 (if cfg.switch_mode then false else m0) m0
        (obj 0) :: Ev.snapshot 0 ::
        (configWarns cfg.scheduler cfg.number_warmup_epochs ++ evs),
      s', ?_⟩
    rw [htr]
    simp [List.append_assoc]
  · decide

end ConcreteRunsB

/-! ## Claim C10 -/

/-- C10: with `lr_decay_steps ≤ 0` or `start ≥ max_iter` the generator
yields no ticks; it still performs the initial objective evaluation and
initial snapshot, performs no decay transition, enters `finalize`
exactly once, and with `restore_best` the model ends in the state of its
initial snapshot (state id 0) after a `load_state_dict` of that
snapshot. -/
theorem C10_degenerate (cfg : Cfg) (f : ℕ → ℕ → ℕ) (obj : ℕ → OVal)
    (m0 : Bool) (h : cfg.lr_decay_steps ≤ 0 ∨ cfg.max_iter ≤ cfg.start) :
    yieldEpochs (early_stopping cfg f obj m0).2 = [] ∧
    (early_stopping cfg f obj m0).2.countP isDecayEv = 0 ∧
    (early_stopping cfg f obj m0).2.countP isFinalizeEv = 1 ∧
    (early_stopping cfg f obj m0).2.take 2 =
      [Ev.evalObj m0 (if cfg.switch_mode then false else m0) m0 (obj 0),
       Ev.snapshot 0] ∧
    (cfg.restore_best = true →
      (early_stopping cfg f obj m0).1.modelState = 0 ∧
      Ev.restoreBest 0 ∈ (early_stopping cfg f obj m0).2) := by
  have hout : outerLoop (effCfgOf cfg) m0 f obj cfg.lr_decay_steps.toNat 0
      { epoch := cfg.start, patience_counter := 0, current := obj 0,
        best := obj 0, bestState := 0, modelState := 0, nCalls := 1,
        nYields := 0, mode := m0 } =
      .ok { epoch := cfg.start, patience_counter := 0, current := obj 0,
            best := obj 0, bestState := 0, modelState := 0, nCalls := 1,
            nYields := 0, mode := m0 } [] := by
    rcases h with h | h
    · have h0 : cfg.lr_decay_steps.toNat = 0 := by
        omega
      rw [h0]
      exact outerLoop_zero _ _ _ _ _ _
    · exact outerLoop_stop (effCfgOf cfg) m0 f obj _ 0 _ h rfl
  have hrun := early_stopping_run_ok cfg f obj m0 _ [] hout
  rw [hrun]
  have hW : ∀ ev ∈ configWarns cfg.scheduler cfg.number_warmup_epochs,
      ev = Ev.warn := configWarns_all_warn _ _
  have hmode0 : ({ epoch := cfg.start, patience_counter := 0,
                   current := obj 0, best := obj 0, bestState := 0,
                   modelState := 0, nCalls := 1, nYields := 0,
                   mode := m0 } : St).mode = m0 := rfl
  have hFin := finalize_events (effCfgOf cfg) m0 obj
    { epoch := cfg.start, patience_counter := 0, current := obj 0,
      best := obj 0, bestState := 0, modelState := 0, nCalls := 1,
      nYields := 0, mode := m0 } hmode0 0 0
  refine ⟨?_, ?_, ?_, ?_, ?_⟩
  · dsimp only
    rw [yieldEpochs_cons_none
        (Ev.evalObj m0 (if cfg.switch_mode then false else m0) m0
          (obj 0)) rfl,
      yieldEpochs_cons_none (Ev.snapshot 0) rfl,
      yieldEpochs_append]
    have hw0 : yieldEpochs (configWarns cfg.scheduler
        cfg.number_warmup_epochs) = [] := by
      apply yieldEpochs_nil_of_no_yield
      intro ev hev
      rw [hW ev hev]
      rfl
    rw [hw0, List.nil_append, List.nil_append,
      yieldEpochs_cons_none Ev.finalizeEnter rfl]
    apply yieldEpochs_nil_of_no_yield
    intro ev hev
    exact (hFin ev hev).2.2.2.2.1
  · dsimp only
    rw [List.countP_cons, List.countP_cons, List.countP_append,
      List.nil_append, List.countP_cons]
    have hw0 : (configWarns cfg.scheduler
        cfg.number_warmup_epochs).countP isDecayEv = 0 := by
      rw [List.countP_eq_zero]
      intro ev hev
      rw [hW ev hev]
      simp [isDecayEv]
    have hf0 : ((finalize (effCfgOf cfg) m0 obj
        { epoch := cfg.start, patience_counter := 0, current := obj 0,
          best := obj 0, bestState := 0, modelState := 0, nCalls := 1,
          nYields := 0, mode := m0 }).2).countP isDecayEv = 0 := by
      rw [List.countP_eq_zero]
      intro ev hev
      have := (hFin ev hev).2.2.1
      simp [this]
    rw [hw0, hf0]
    simp [isDecayEv, isFinalizeEv]
  · dsimp only
    rw [List.countP_cons, List.countP_cons, List.countP_append,
      List.nil_append, List.countP_cons]
    have hw0 : (configWarns cfg.scheduler
        cfg.number_warmup_epochs).countP isFinalizeEv = 0 := by
      rw [List.countP_eq_zero]
      intro ev hev
      rw [hW ev hev]
      simp [isFinalizeEv]
    have hf0 : ((finalize (effCfgOf cfg) m0 obj
        { epoch := cfg.start, patience_counter := 0, current := obj 0,
          best := obj 0, bestState := 0, modelState := 0, nCalls := 1,
          nYields := 0, mode := m0 }).2).countP isFinalizeEv = 0 := by
      rw [List.countP_eq_zero]
      intro ev hev
      have := (hFin ev hev).2.2.2.1
      simp [this]
    rw [hw0, hf0]
    simp [isFinalizeEv]
  · rfl
  · intro hrb
    constructor
    · dsimp only
      rw [finalize_eq]
      have hrb' : (effCfgOf cfg).restore_best = true := hrb
      simp [hrb']
    · dsimp only
      rw [finalize_eq]
      have hrb' : (effCfgOf cfg).restore_best = true := hrb
      simp [hrb']

/-- Witness for C10 at `lr_decay_steps = 0`. -/
theorem C10_degenerate_witness :
    (cfgZero.lr_decay_steps ≤ 0 ∨ cfgZero.max_iter ≤ cfgZero.start) ∧
    (yieldEpochs (early_stopping cfgZero noMut (objConst ⟨1, true⟩)
        true).2 = [] ∧
      (early_stopping cfgZero noMut (objConst ⟨1, true⟩)
        true).2.countP isDecayEv = 0 ∧
      (early_stopping cfgZero noMut (objConst ⟨1, true⟩)
        true).2.countP isFinalizeEv = 1 ∧
      (early_stopping cfgZero noMut (objConst ⟨1, true⟩) true).2.take 2 =
        [Ev.evalObj true (if cfgZero.switch_mode then false else true)
          true (objConst ⟨1, true⟩ 0), Ev.snapshot 0] ∧
      (cfgZero.restore_best = true →
        (early_stopping cfgZero noMut (objConst ⟨1, true⟩)
          true).1.modelState = 0 ∧
        Ev.restoreBest 0 ∈ (early_stopping cfgZero noMut
          (objConst ⟨1, true⟩) true).2)) :=
  ⟨Or.inl (by decide),
   C10_degenerate cfgZero noMut (objConst ⟨1, true⟩) true
     (Or.inl (by decide))⟩
